import Mathlib

/-!
Verification development for the s2d incremental document-update pipeline.

Shallow embedding conventions:
* Python strings are modelled as `List Char` (`PyStr`); whitespace is the
  ASCII whitespace set of `str.isspace`/`str.strip`/`str.split`.
* JSON values are modelled by the inductive `Json`; JSON numbers are
  modelled as integers (the repository's documents and patches use only
  strings, integers, arrays and objects).
* Stateful code is embedded in state-passing style: a function that in
  Python could mutate an argument returns the post-call state of that
  argument alongside its result.
* Fallible code returns `Except`; a Python `try/except` is a `match` on
  the `Except` value.
-/

namespace S2D

/-- Python strings as explicit character lists. -/
abbrev PyStr := List Char

/-- Coerce a Lean string literal to the `PyStr` model. -/
def str (s : String) : PyStr := s.data

/-- ASCII whitespace, as recognised by `str.strip()` / `str.split()`. -/
def pyIsSpace (c : Char) : Bool :=
  c = ' ' || c = '\t' || c = '\n' || c = '\r' || c = '\x0b' || c = '\x0c'

/-- `str.strip()`: drop leading and trailing whitespace. -/
def pyStrip (s : PyStr) : PyStr :=
  ((s.dropWhile pyIsSpace).reverse.dropWhile pyIsSpace).reverse

/-- One step of whitespace tokenization: accumulate the current token. -/
def pySplitStep (acc : List PyStr × PyStr) (c : Char) : List PyStr × PyStr :=
  if pyIsSpace c then
    match acc with
    | (done, []) => (done, [])
    | (done, cur) => (done ++ [cur.reverse], [])
  else (acc.1, c :: acc.2)

/-- `str.split()` with no argument: split on whitespace runs, no empty tokens. -/
def pySplit (s : PyStr) : List PyStr :=
  match s.foldl pySplitStep ([], []) with
  | (done, []) => done
  | (done, cur) => done ++ [cur.reverse]

/-- `" ".join(tokens)`. -/
def joinSpace : List PyStr → PyStr
  | [] => []
  | [t] => t
  | t :: ts => t ++ ' ' :: joinSpace ts

/-- Python list slicing `xs[-w:]`.  Note the `-0` quirk: `xs[-0:]` is `xs[0:]`,
the whole list, because `-0 == 0` in Python. -/
def pyTakeLastSlice (w : Nat) (xs : List α) : List α :=
  if w = 0 then xs else xs.drop (xs.length - w)

/-! ## core/transcription_buffer.py -/

/-- State of `TranscriptionBuffer` (core/transcription_buffer.py). -/
structure TranscriptionBuffer where
  full_text : PyStr
  window_size : Nat
deriving DecidableEq

/-- `TranscriptionBuffer.__init__`: empty accumulated text. -/
def TranscriptionBuffer.init (window_size : Nat) : TranscriptionBuffer :=
  { full_text := [], window_size := window_size }

/-- `TranscriptionBuffer.append` (transcription_buffer.py lines 30-50).
Returns the Python return value together with the post-call buffer state. -/
def TranscriptionBuffer.append (b : TranscriptionBuffer) (text : PyStr) :
    Bool × TranscriptionBuffer :=
  if text = [] || pyStrip text = [] then
    (false, b)
  else if b.full_text = [] then
    (true, { b with full_text := pyStrip text })
  else
    (true, { b with full_text := b.full_text ++ ' ' :: pyStrip text })

/-- `TranscriptionBuffer.get_tail` (transcription_buffer.py lines 52-75). -/
def TranscriptionBuffer.get_tail (b : TranscriptionBuffer) : PyStr :=
  if b.full_text = [] then []
  else
    let words := pySplit b.full_text
    if words.length ≤ b.window_size then b.full_text
    else joinSpace (pyTakeLastSlice b.window_size words)

/-- `TranscriptionBuffer.get_tail` in state-passing form: the method reads
`self.full_text` and `self.window_size` and performs no assignment, so the
post-call state is the pre-call state. -/
def TranscriptionBuffer.get_tailS (b : TranscriptionBuffer) :
    PyStr × TranscriptionBuffer :=
  (b.get_tail, b)

/-! ## JSON values -/

/-- JSON values (the common model for Python objects handled by the codec).
Numbers are modelled as integers; object fields are an insertion-ordered
association list, as in a Python `dict`. -/
inductive Json where
  | null : Json
  | bool (b : Bool) : Json
  | num (n : Int) : Json
  | str (s : PyStr) : Json
  | arr (xs : List Json) : Json
  | obj (fs : List (PyStr × Json)) : Json

mutual

/-- Structural equality of JSON values (Python `==`). -/
def Json.beq : Json → Json → Bool
  | .null, .null => true
  | .bool a, .bool b => a == b
  | .num a, .num b => a == b
  | .str a, .str b => a == b
  | .arr a, .arr b => Json.beqList a b
  | .obj a, .obj b => Json.beqFields a b
  | _, _ => false

/-- Elementwise equality of JSON arrays. -/
def Json.beqList : List Json → List Json → Bool
  | [], [] => true
  | x :: xs, y :: ys => Json.beq x y && Json.beqList xs ys
  | _, _ => false

/-- Fieldwise equality of JSON objects. -/
def Json.beqFields : List (PyStr × Json) → List (PyStr × Json) → Bool
  | [], [] => true
  | (k, v) :: xs, (k', v') :: ys => k == k' && Json.beq v v' && Json.beqFields xs ys
  | _, _ => false

end

mutual

theorem Json.beq_iff : ∀ a b : Json, Json.beq a b = true ↔ a = b
  | .null, b => by cases b <;> simp [Json.beq]
  | .bool a, b => by cases b <;> simp [Json.beq]
  | .num a, b => by cases b <;> simp [Json.beq]
  | .str a, b => by cases b <;> simp [Json.beq]
  | .arr a, b => by
    cases b <;> simp [Json.beq]
    exact Json.beqList_iff a _
  | .obj a, b => by
    cases b <;> simp [Json.beq]
    exact Json.beqFields_iff a _

theorem Json.beqList_iff : ∀ a b : List Json, Json.beqList a b = true ↔ a = b
  | [], b => by cases b <;> simp [Json.beqList]
  | x :: xs, b => by
    cases b with
    | nil => simp [Json.beqList]
    | cons y ys =>
      simp only [Json.beqList, Bool.and_eq_true, List.cons.injEq]
      exact and_congr (Json.beq_iff x y) (Json.beqList_iff xs ys)

theorem Json.beqFields_iff :
    ∀ a b : List (PyStr × Json), Json.beqFields a b = true ↔ a = b
  | [], b => by cases b <;> simp [Json.beqFields]
  | (k, v) :: xs, b => by
    cases b with
    | nil => simp [Json.beqFields]
    | cons y ys =>
      obtain ⟨k', v'⟩ := y
      simp only [Json.beqFields, Bool.and_eq_true, List.cons.injEq, Prod.mk.injEq,
        beq_iff_eq]
      rw [Json.beq_iff v v', Json.beqFields_iff xs ys, and_assoc]

end

instance : DecidableEq Json := fun a b => decidable_of_iff _ (Json.beq_iff a b)

/-- `isinstance(v, list)`. -/
def Json.isArr : Json → Bool
  | .arr _ => true
  | _ => false

/-- `isinstance(v, dict)`. -/
def Json.isObj : Json → Bool
  | .obj _ => true
  | _ => false

/-- Ordered-dict insertion `d[k] = v`: an existing key keeps its position and
gets the new value; a new key is appended. -/
def dictInsert (k : PyStr) (v : Json) : List (PyStr × Json) → List (PyStr × Json)
  | [] => [(k, v)]
  | (k', v') :: fs =>
    if k' = k then (k, v) :: fs else (k', v') :: dictInsert k v fs

/-- `k in d` for an object's field list. -/
def hasKey (k : PyStr) (fs : List (PyStr × Json)) : Bool :=
  fs.any (fun f => f.1 = k)

/-- `d[k]` lookup (first binding; field lists built by `dictInsert` have
unique keys). -/
def getKey (k : PyStr) : List (PyStr × Json) → Option Json
  | [] => none
  | (k', v) :: fs => if k' = k then some v else getKey k fs

/-! ## json.dumps (default separators, ensure_ascii=True) -/

/-- Decimal digits with explicit fuel (structural recursion; `n / 10`
shrinks strictly faster than the fuel). -/
def natDigitsFuel : Nat → Nat → List Char
  | 0, _ => []
  | Nat.succ fuel, n =>
    if n < 10 then [Char.ofNat (48 + n)]
    else natDigitsFuel fuel (n / 10) ++ [Char.ofNat (48 + n % 10)]

/-- Decimal digits of a natural number, most significant first (Python
`str(n)` for `n ≥ 0`). -/
def natDigits (n : Nat) : List Char := natDigitsFuel (n + 1) n

/-- Python `str(i)` for an integer. -/
def intStr (i : Int) : PyStr :=
  if i < 0 then '-' :: natDigits i.natAbs else natDigits i.natAbs

/-- Lower-case hexadecimal digit. -/
def hexDigitChar (n : Nat) : Char :=
  if n < 10 then Char.ofNat (48 + n) else Char.ofNat (87 + n)

/-- Four-digit lower-case hex rendering, as in a `\uXXXX` escape. -/
def hex4 (n : Nat) : PyStr :=
  [hexDigitChar (n / 4096 % 16), hexDigitChar (n / 256 % 16),
   hexDigitChar (n / 16 % 16), hexDigitChar (n % 16)]

/-- `json.dumps` escaping for one character of a string (ensure_ascii=True):
quote and backslash get a backslash escape, the five short control escapes
are used where they exist, every other character outside printable ASCII is
rendered as `\uXXXX` (with a surrogate pair beyond the BMP). -/
def escChar (c : Char) : PyStr :=
  if c = '"' then ['\\', '"']
  else if c = '\\' then ['\\', '\\']
  else if c = '\n' then ['\\', 'n']
  else if c = '\r' then ['\\', 'r']
  else if c = '\t' then ['\\', 't']
  else if c = '\x08' then ['\\', 'b']
  else if c = '\x0c' then ['\\', 'f']
  else if c.toNat < 0x20 || 0x7f ≤ c.toNat then
    if c.toNat < 0x10000 then '\\' :: 'u' :: hex4 c.toNat
    else
      '\\' :: 'u' :: hex4 (0xd800 + (c.toNat - 0x10000) / 0x400) ++
      '\\' :: 'u' :: hex4 (0xdc00 + (c.toNat - 0x10000) % 0x400)
  else [c]

/-- Escape a whole string body. -/
def escStr (s : PyStr) : PyStr := s.foldr (fun c acc => escChar c ++ acc) []

mutual

/-- `json.dumps(v)` with the default separators `", "` and `": "`. -/
def dumpsV : Json → PyStr
  | .null => str "null"
  | .bool true => str "true"
  | .bool false => str "false"
  | .num n => intStr n
  | .str s => '"' :: (escStr s ++ ['"'])
  | .arr xs => '[' :: (dumpsItems xs ++ [']'])
  | .obj fs => '\x7b' :: (dumpsFields fs ++ ['\x7d'])

/-- Array elements joined by `", "`. -/
def dumpsItems : List Json → PyStr
  | [] => []
  | x :: xs => dumpsV x ++ dumpsItemsTail xs

/-- The `", "`-prefixed remainder of an element list. -/
def dumpsItemsTail : List Json → PyStr
  | [] => []
  | x :: xs => ',' :: ' ' :: (dumpsV x ++ dumpsItemsTail xs)

/-- Object fields `"k": v` joined by `", "`. -/
def dumpsFields : List (PyStr × Json) → PyStr
  | [] => []
  | (k, v) :: fs =>
    '"' :: (escStr k ++ '"' :: ':' :: ' ' :: (dumpsV v ++ dumpsFieldsTail fs))

/-- The `", "`-prefixed remainder of a field list. -/
def dumpsFieldsTail : List (PyStr × Json) → PyStr
  | [] => []
  | (k, v) :: fs =>
    ',' :: ' ' :: '"' :: (escStr k ++ '"' :: ':' :: ' ' :: (dumpsV v ++ dumpsFieldsTail fs))

end

/-! ## json.loads -/

/-- JSON whitespace accepted between tokens by `json.loads`. -/
def jsonWs (c : Char) : Bool := c = ' ' || c = '\t' || c = '\n' || c = '\r'

/-- Skip inter-token whitespace. -/
def skipWs (s : PyStr) : PyStr := s.dropWhile jsonWs

/-- Decimal digit test. -/
def isDigit (c : Char) : Bool := 48 ≤ c.toNat && c.toNat ≤ 57

/-- Value of a decimal digit character. -/
def digitVal (c : Char) : Nat := c.toNat - 48

/-- Value of a most-significant-first digit string. -/
def digitsVal (ds : PyStr) : Nat := ds.foldl (fun a c => a * 10 + digitVal c) 0

/-- Value of a hexadecimal digit character, if it is one. -/
def hexVal (c : Char) : Option Nat :=
  if 48 ≤ c.toNat && c.toNat ≤ 57 then some (c.toNat - 48)
  else if 97 ≤ c.toNat && c.toNat ≤ 102 then some (c.toNat - 87)
  else if 65 ≤ c.toNat && c.toNat ≤ 70 then some (c.toNat - 55)
  else none

/-- Combined value of four hexadecimal digit characters. -/
def hexVal4 (a b c d : Char) : Option Nat :=
  match hexVal a, hexVal b, hexVal c, hexVal d with
  | some x, some y, some z, some w => some (((x * 16 + y) * 16 + z) * 16 + w)
  | _, _, _, _ => none

/-- Build a character from a Unicode scalar value; `none` if out of range
(lone surrogates are outside the model's string alphabet). -/
def mkChar? (n : Nat) : Option Char :=
  if _h : n.isValidChar then some (Char.ofNat n) else none

/-- Prepend a character to a successfully parsed string tail. -/
def consStrResult (c : Char) : Option (PyStr × PyStr) → Option (PyStr × PyStr) :=
  Option.map (fun p => (c :: p.1, p.2))

/-- Combine a high surrogate `n` with a candidate low surrogate `m` into
the encoded character, if `m` is indeed a low surrogate. -/
def surChar (n m : Nat) : Option Char :=
  if 0xdc00 ≤ m ∧ m ≤ 0xdfff then
    mkChar? (0x10000 + (n - 0xd800) * 0x400 + (m - 0xdc00))
  else none

mutual

/-- Parse a JSON string body after the opening quote, up to and including
the closing quote.  Strict mode: unescaped control characters are
rejected, as in `json.loads`. -/
def parseStrBody : PyStr → Option (PyStr × PyStr)
  | [] => none
  | c :: rest =>
    if c = '"' then some ([], rest)
    else if c = '\\' then parseEsc rest
    else if c.toNat < 0x20 then none
    else consStrResult c (parseStrBody rest)

/-- Parse one backslash escape and the remainder of the string body. -/
def parseEsc : PyStr → Option (PyStr × PyStr)
  | [] => none
  | e :: r =>
    if e = '"' then consStrResult '"' (parseStrBody r)
    else if e = '\\' then consStrResult '\\' (parseStrBody r)
    else if e = '/' then consStrResult '/' (parseStrBody r)
    else if e = 'b' then consStrResult '\x08' (parseStrBody r)
    else if e = 'f' then consStrResult '\x0c' (parseStrBody r)
    else if e = 'n' then consStrResult '\n' (parseStrBody r)
    else if e = 'r' then consStrResult '\r' (parseStrBody r)
    else if e = 't' then consStrResult '\t' (parseStrBody r)
    else if e = 'u' then parseU 0 4 r
    else none

/-- Parse the remaining `k` (counting down from 4) hex digits of a
`\uXXXX` escape into the accumulator, then either continue with the plain
character or, for a high surrogate, demand an escaped low surrogate. -/
def parseU (acc k : Nat) : PyStr → Option (PyStr × PyStr)
  | c :: rest =>
    match hexVal c with
    | some d =>
      match k with
      | Nat.succ (Nat.succ k2) => parseU (acc * 16 + d) (Nat.succ k2) rest
      | _ =>
        if 0xd800 ≤ acc * 16 + d ∧ acc * 16 + d ≤ 0xdbff then
          parseUBs (acc * 16 + d) rest
        else
          match mkChar? (acc * 16 + d) with
          | some ch => consStrResult ch (parseStrBody rest)
          | none => none
    | none => none
  | [] => none

/-- After a high surrogate, expect a backslash. -/
def parseUBs (n : Nat) : PyStr → Option (PyStr × PyStr)
  | c :: rest => if c = '\\' then parseUU n rest else none
  | [] => none

/-- After a high surrogate and its backslash, expect `u`. -/
def parseUU (n : Nat) : PyStr → Option (PyStr × PyStr)
  | c :: rest => if c = 'u' then parseULow n 0 4 rest else none
  | [] => none

/-- Parse the remaining `k` hex digits of the low-surrogate escape,
combine the surrogate pair into one scalar value, and continue. -/
def parseULow (n : Nat) (acc k : Nat) : PyStr → Option (PyStr × PyStr)
  | c :: rest =>
    match hexVal c with
    | some d =>
      match k with
      | Nat.succ (Nat.succ k2) => parseULow n (acc * 16 + d) (Nat.succ k2) rest
      | _ =>
        match surChar n (acc * 16 + d) with
        | some ch => consStrResult ch (parseStrBody rest)
        | none => none
    | none => none
  | [] => none

end

/-- Parse an unsigned integer literal: maximal digit run, rejecting a
leading zero before further digits (JSON number grammar) and any
fraction/exponent continuation (numbers are modelled as integers). -/
def parseUNum (s : PyStr) : Option (Nat × PyStr) :=
  let ds := s.takeWhile isDigit
  let rest := s.dropWhile isDigit
  if ds = [] then none
  else if ds.head? = some '0' && 1 < ds.length then none
  else
    match rest with
    | c :: _ => if c = '.' || c = 'e' || c = 'E' then none else some (digitsVal ds, rest)
    | [] => some (digitsVal ds, rest)

/-- Parse a (possibly negative) integer literal. -/
def parseNumberCore : PyStr → Option (Json × PyStr)
  | [] => none
  | c :: rest =>
    if c = '-' then (parseUNum rest).map (fun p => (Json.num (-(p.1 : Int)), p.2))
    else (parseUNum (c :: rest)).map (fun p => (Json.num (p.1 : Int), p.2))

mutual

/-- Recursive-descent JSON value parse; the fuel bounds recursion depth
and is instantiated with the input length (ample: every nested parse
consumes at least one character). -/
def parseValue : Nat → PyStr → Option (Json × PyStr)
  | 0, _ => none
  | Nat.succ fuel, s =>
    match skipWs s with
    | [] => none
    | c :: rest =>
      if c = '\x7b' then
        match skipWs rest with
        | '\x7d' :: r => some (.obj [], r)
        | s2 => (parseObjItems fuel [] s2).map (fun p => (Json.obj p.1, p.2))
      else if c = '[' then
        match skipWs rest with
        | ']' :: r => some (.arr [], r)
        | s2 => (parseArrItems fuel s2).map (fun p => (Json.arr p.1, p.2))
      else if c = '"' then (parseStrBody rest).map (fun p => (Json.str p.1, p.2))
      else if c = 't' then
        match rest with
        | 'r' :: 'u' :: 'e' :: r => some (.bool true, r)
        | _ => none
      else if c = 'f' then
        match rest with
        | 'a' :: 'l' :: 's' :: 'e' :: r => some (.bool false, r)
        | _ => none
      else if c = 'n' then
        match rest with
        | 'u' :: 'l' :: 'l' :: r => some (.null, r)
        | _ => none
      else if c = '-' || isDigit c then parseNumberCore (c :: rest)
      else none

/-- Parse the elements of a non-empty JSON array, including the closing
bracket. -/
def parseArrItems : Nat → PyStr → Option (List Json × PyStr)
  | 0, _ => none
  | Nat.succ fuel, s =>
    match parseValue fuel s with
    | none => none
    | some (v, r) =>
      match skipWs r with
      | ',' :: r2 => (parseArrItems fuel r2).map (fun p => (v :: p.1, p.2))
      | ']' :: r2 => some ([v], r2)
      | _ => none

/-- Parse the fields of a non-empty JSON object, including the closing
brace, accumulating into a Python dict (duplicate keys: last value wins,
first position kept). -/
def parseObjItems : Nat → List (PyStr × Json) → PyStr → Option (List (PyStr × Json) × PyStr)
  | 0, _, _ => none
  | Nat.succ fuel, acc, s =>
    match skipWs s with
    | '"' :: r =>
      match parseStrBody r with
      | none => none
      | some (k, r1) =>
        match skipWs r1 with
        | ':' :: r2 =>
          match parseValue fuel r2 with
          | none => none
          | some (v, r3) =>
            match skipWs r3 with
            | ',' :: r4 => parseObjItems fuel (dictInsert k v acc) r4
            | '\x7d' :: r4 => some (dictInsert k v acc, r4)
            | _ => none
        | _ => none
    | _ => none

end

/-- `json.loads`: parse one JSON value, allowing only whitespace around it. -/
def loads (s : PyStr) : Option Json :=
  match parseValue (s.length + 1) s with
  | some (v, rest) => if skipWs rest = [] then some v else none
  | none => none

mutual

/-- Well-formed JSON values: every object's keys are distinct.  (`loads`
only produces well-formed values, since a Python dict collapses duplicate
keys.) -/
def Json.WF : Json → Prop
  | .null => True
  | .bool _ => True
  | .num _ => True
  | .str _ => True
  | .arr xs => Json.WFList xs
  | .obj fs => (fs.map Prod.fst).Nodup ∧ Json.WFFields fs

/-- Well-formedness of every element of an array. -/
def Json.WFList : List Json → Prop
  | [] => True
  | x :: xs => Json.WF x ∧ Json.WFList xs

/-- Well-formedness of every value of an object. -/
def Json.WFFields : List (PyStr × Json) → Prop
  | [] => True
  | (_, v) :: fs => Json.WF v ∧ Json.WFFields fs

end

mutual

/-- Fuel needed by `parseValue` to parse the serialized form of a value
(one unit per recursive call of the parser). -/
def jsonNeed : Json → Nat
  | .null => 1
  | .bool _ => 1
  | .num _ => 1
  | .str _ => 1
  | .arr xs => 1 + jsonNeedList xs
  | .obj fs => 1 + jsonNeedFields fs

/-- Fuel needed by `parseArrItems` for an element list. -/
def jsonNeedList : List Json → Nat
  | [] => 0
  | x :: xs => 1 + max (jsonNeed x) (jsonNeedList xs)

/-- Fuel needed by `parseObjItems` for a field list. -/
def jsonNeedFields : List (PyStr × Json) → Nat
  | [] => 0
  | (_, v) :: fs => 1 + max (jsonNeed v) (jsonNeedFields fs)

end

/-- Admissible continuations after a serialized value: nothing, or a
separator/closer — never a character that could extend a number token. -/
def restOk (rest : PyStr) : Prop :=
  rest = [] ∨ ∃ c rest', rest = c :: rest' ∧ (c = ',' ∨ c = ']' ∨ c = '\x7d')

/-- A string whose only `]` is its final character. -/
def rbOnlyFinal (t : PyStr) : Prop :=
  t.getLast? = some ']' ∧ ']' ∉ t.dropLast

/-! ## core/patch_generator.py: parse_llm_response

The two extraction regexes of `parse_llm_response` are modelled by direct
string functions implementing `re.search` semantics (leftmost match;
lazy `.*?`; greedy `\s*`, which before a non-whitespace literal is a
maximal whitespace skip). -/

/-- Python `\s` class (`re` module, ASCII + the string whitespace set). -/
def pyReWs (c : Char) : Bool := pyIsSpace c

/-- Maximal `\s*` skip. -/
def skipPyWs (s : PyStr) : PyStr := s.dropWhile pyReWs

/-- Split at the first occurrence of `c`: `some (before, after)` with
`s = before ++ c :: after` and `c ∉ before`. -/
def splitFirst (c : Char) : PyStr → Option (PyStr × PyStr)
  | [] => none
  | x :: xs =>
    if x = c then some ([], xs)
    else (splitFirst c xs).map (fun p => (x :: p.1, p.2))

/-- `re.search(r'\[.*?\]', s, re.DOTALL)`: the match starts at the first
`[` that is followed by a `]`, and extends lazily to the first such `]`. -/
def bareArrayMatch : PyStr → Option PyStr
  | [] => none
  | c :: rest =>
    if c = '[' then
      match splitFirst ']' rest with
      | some (pre, _) => some ('[' :: (pre ++ [']']))
      | none => bareArrayMatch rest
    else bareArrayMatch rest

/-- Does `\s*three-backticks` match here (greedy `\s*` then the literal)? -/
def closeFence (s : PyStr) : Bool :=
  match skipPyWs s with
  | '\x60' :: '\x60' :: '\x60' :: _ => true
  | _ => false

/-- Lazy `.*?\]` inside the fenced-block regex: scan for the first `]`
whose continuation matches `\s*` + three backticks; `accRev` holds the
scanned content reversed. -/
def lazyFenceBody : PyStr → PyStr → Option PyStr
  | [], _ => none
  | c :: rest, accRev =>
    if c = ']' then
      if closeFence rest then some ('[' :: (accRev.reverse ++ [']']))
      else lazyFenceBody rest (c :: accRev)
    else lazyFenceBody rest (c :: accRev)

/-- After the opening fence and optional `json` tag: `\s*` then the
captured `\[.*?\]` then `\s*` and the closing fence. -/
def fenceAfterTag (s : PyStr) : Option PyStr :=
  match skipPyWs s with
  | '[' :: body => lazyFenceBody body []
  | _ => none

/-- Try the fenced-block pattern anchored at this position: three
backticks, then `(?:json)?` (greedy: the tagged alternative first). -/
def fenceAt (s : PyStr) : Option PyStr :=
  match s with
  | '\x60' :: '\x60' :: '\x60' :: after =>
    match after with
    | 'j' :: 's' :: 'o' :: 'n' :: after2 =>
      match fenceAfterTag after2 with
      | some r => some r
      | none => fenceAfterTag after
    | _ => fenceAfterTag after
  | _ => none

/-- `re.search(r'```(?:json)?\s*(\[.*?\])\s*```', s, re.DOTALL)`, returning
the captured group: try each start position left to right. -/
def codeBlockExtract : PyStr → Option PyStr
  | [] => none
  | c :: rest =>
    match fenceAt (c :: rest) with
    | some r => some r
    | none => codeBlockExtract rest

/-- The substring `parse_llm_response` selects for `json.loads`
(patch_generator.py lines 105-120): fenced code block first, then first
bare `[...]`, else the whole stripped response. -/
def selectJsonStr (response : PyStr) : PyStr :=
  match codeBlockExtract response with
  | some j => j
  | none =>
    match bareArrayMatch response with
    | some j => j
    | none => pyStrip response

/-- Python exception values relevant to the embedded functions. -/
inductive PyErr where
  | valueErr (msg : PyStr)
  | typeErr (msg : PyStr)
  | jsonPatchErr (msg : PyStr)
  | pointerErr (msg : PyStr)
deriving DecidableEq

/-- The per-operation field checks of `parse_llm_response`
(patch_generator.py lines 132-144), applied in order with early exit. -/
def checkOps : List Json → Option PyErr
  | [] => none
  | op :: rest =>
    match op with
    | .obj fs =>
      if !hasKey (str "op") fs then some (.valueErr (str "Operation missing op field"))
      else if !hasKey (str "path") fs then some (.valueErr (str "Operation missing path field"))
      else if !(getKey (str "op") fs = some (.str (str "remove")) ||
                getKey (str "op") fs = some (.str (str "test"))) &&
              !hasKey (str "value") fs then
        some (.valueErr (str "Operation missing value field"))
      else checkOps rest
    | _ => some (.valueErr (str "Operation is not a dictionary"))

/-- The spec-side characterization of an operation the parser rejects:
not an object, or lacking `op`, or lacking `path`, or lacking `value`
while its `op` is neither `remove` nor `test` (spec §4.2, `parse`). -/
def opRejected (op : Json) : Bool :=
  match op with
  | .obj fs =>
    !hasKey (str "op") fs || !hasKey (str "path") fs ||
    (!(getKey (str "op") fs = some (.str (str "remove")) ||
       getKey (str "op") fs = some (.str (str "test"))) &&
     !hasKey (str "value") fs)
  | _ => true

/-- `parse_llm_response` (patch_generator.py lines 84-146). -/
def parse_llm_response (response : PyStr) : Except PyErr (List Json) :=
  if response = [] || pyStrip response = [] then .ok []
  else
    match loads (selectJsonStr response) with
    | none => .error (.valueErr (str "Failed to parse JSON from LLM response"))
    | some p =>
      match p with
      | .arr ops =>
        match checkOps ops with
        | some e => .error e
        | none => .ok ops
      | _ => .error (.valueErr (str "Parsed JSON is not an array"))

/-! ## core/patch_generator.py: normalize_patch -/

/-- Keys of the `path_ops` dict are Python strings; an `add`/`remove`
operation is stored under the composite key `f"{path}_{op_type}_{len(path_ops)}"`,
a `replace` under its path. -/
def composeKey (path op_type : PyStr) (n : Nat) : PyStr :=
  path ++ '_' :: op_type ++ '_' :: natDigits n

/-- One iteration of the `normalize_patch` loop: store a `replace` under
its path, anything else under a composite key built with the dict's
current size.  Fails with `KeyError` if `path`/`op` is missing, and is
modelled for string-valued `path`/`op` fields (the only ones the
repository produces; the f-string interpolation is modelled for them). -/
def normalizeStep (path_ops : List (PyStr × Json)) (operation : Json) :
    Except PyErr (List (PyStr × Json)) :=
  match operation with
  | .obj fs =>
    match getKey (str "path") fs, getKey (str "op") fs with
    | some (.str path), some (.str op_type) =>
      if op_type = str "replace" then
        .ok (dictInsert path operation path_ops)
      else
        .ok (dictInsert (composeKey path op_type path_ops.length) operation path_ops)
    | _, _ => .error (.valueErr (str "KeyError"))
  | _ => .error (.typeErr (str "operation is not a dict"))

/-- `normalize_patch` (patch_generator.py lines 190-223). -/
def normalize_patch (patch : List Json) : Except PyErr (List Json) :=
  (patch.foldlM normalizeStep []).map (fun d => d.map Prod.snd)

/-! ## backend/models/session.py -/

/-- `Session.add_patch_to_history` (session.py lines 99-111): append a
non-empty patch, then trim to the last `max_count` entries.  Note the
Python slice `history[-max_count:]` keeps everything when `max_count`
is `0`. -/
def add_patch_to_history (history : List (List Json)) (patch_ops : List Json)
    (max_count : Nat) : List (List Json) :=
  if patch_ops = [] then history
  else
    let h := history ++ [patch_ops]
    if max_count < h.length then pyTakeLastSlice max_count h else h

/-- Fold a sequence of `add_patch_to_history` calls over a starting
history. -/
def addAllPatches (history : List (List Json)) (adds : List (List Json))
    (max_count : Nat) : List (List Json) :=
  adds.foldl (fun h a => add_patch_to_history h a max_count) history

/-! ## The jsonpatch dependency

Modelled from the spec: the external `jsonpatch`/`jsonpointer` libraries
are not part of the repository; their RFC 6902 application semantics are
modelled from spec §4.2 ("apply(patch, document)") and the RFC.  A
`JsonPatchException` is `PyErr.jsonPatchErr`; a pointer-resolution error
from the `jsonpointer` layer is `PyErr.pointerErr` (not a
`JsonPatchException`). -/

/-- Split a string at every occurrence of `c`, keeping empty parts. -/
def splitOnChar (c : Char) : PyStr → List PyStr
  | [] => [[]]
  | x :: xs =>
    if x = c then [] :: splitOnChar c xs
    else
      match splitOnChar c xs with
      | h :: t => (x :: h) :: t
      | [] => [[x]]

/-- JSON Pointer token unescaping: `~1` is `/`, `~0` is `~`. -/
def unescapeTok : PyStr → PyStr
  | [] => []
  | '~' :: '1' :: rest => '/' :: unescapeTok rest
  | '~' :: '0' :: rest => '~' :: unescapeTok rest
  | c :: rest => c :: unescapeTok rest

/-- Parse a JSON Pointer: empty means the whole document, otherwise it
must start with `/`. -/
def ptrTokens (p : PyStr) : Except PyErr (List PyStr) :=
  match p with
  | [] => .ok []
  | '/' :: rest => .ok ((splitOnChar '/' rest).map unescapeTok)
  | _ => .error (.pointerErr (str "Location must start with /"))

/-- Array index token: `0` or a nonzero-leading digit run. -/
def parseArrIndex (t : PyStr) : Option Nat :=
  match t with
  | ['0'] => some 0
  | c :: rest => if isDigit c && !(c = '0') && rest.all isDigit then some (digitsVal (c :: rest)) else none
  | [] => none

/-- Resolve a pointer to the value it addresses. -/
def jpGet : Json → List PyStr → Except PyErr Json
  | d, [] => .ok d
  | .obj fs, t :: ts =>
    match getKey t fs with
    | some v => jpGet v ts
    | none => .error (.pointerErr (str "member not found"))
  | .arr xs, t :: ts =>
    match parseArrIndex t with
    | some i =>
      match xs.get? i with
      | some v => jpGet v ts
      | none => .error (.pointerErr (str "index out of range"))
    | none => .error (.pointerErr (str "invalid array index"))
  | _, _ :: _ => .error (.pointerErr (str "cannot resolve pointer in a non-container"))

/-- Delete a key from an object's field list. -/
def eraseKey (k : PyStr) : List (PyStr × Json) → List (PyStr × Json)
  | [] => []
  | (k', v) :: fs => if k' = k then fs else (k', v) :: eraseKey k fs

/-- RFC 6902 `add`: at the root it replaces the document; in an object it
sets/creates the key; in an array, `-` appends and a numeric index
inserts at that position (at most one past the end). -/
def jpAdd : Json → List PyStr → Json → Except PyErr Json
  | _, [], v => .ok v
  | .obj fs, [t], v => .ok (.obj (dictInsert t v fs))
  | .arr xs, [t], v =>
    if t = str "-" then .ok (.arr (xs ++ [v]))
    else
      match parseArrIndex t with
      | some i =>
        if i ≤ xs.length then .ok (.arr (List.insertIdx i v xs))
        else .error (.jsonPatchErr (str "index is out of bounds"))
      | none => .error (.pointerErr (str "invalid array index"))
  | .obj fs, t :: t2 :: ts, v =>
    match getKey t fs with
    | some c => (jpAdd c (t2 :: ts) v).map (fun c' => .obj (dictInsert t c' fs))
    | none => .error (.pointerErr (str "member not found"))
  | .arr xs, t :: t2 :: ts, v =>
    match parseArrIndex t with
    | some i =>
      match xs.get? i with
      | some c => (jpAdd c (t2 :: ts) v).map (fun c' => .arr (xs.set i c'))
      | none => .error (.pointerErr (str "index out of range"))
    | none => .error (.pointerErr (str "invalid array index"))
  | _, _ :: _, _ => .error (.pointerErr (str "cannot resolve pointer in a non-container"))

/-- RFC 6902 `replace`: the target must already exist; a missing final
segment is a `JsonPatchConflict` (a `JsonPatchException`), while missing
intermediate segments surface as `jsonpointer` errors. -/
def jpReplace : Json → List PyStr → Json → Except PyErr Json
  | _, [], v => .ok v
  | .obj fs, [t], v =>
    if hasKey t fs then .ok (.obj (dictInsert t v fs))
    else .error (.jsonPatchErr (str "can not replace a non-existent object member"))
  | .arr xs, [t], v =>
    match parseArrIndex t with
    | some i =>
      if i < xs.length then .ok (.arr (xs.set i v))
      else .error (.jsonPatchErr (str "can not replace outside of list"))
    | none => .error (.pointerErr (str "invalid array index"))
  | .obj fs, t :: t2 :: ts, v =>
    match getKey t fs with
    | some c => (jpReplace c (t2 :: ts) v).map (fun c' => .obj (dictInsert t c' fs))
    | none => .error (.pointerErr (str "member not found"))
  | .arr xs, t :: t2 :: ts, v =>
    match parseArrIndex t with
    | some i =>
      match xs.get? i with
      | some c => (jpReplace c (t2 :: ts) v).map (fun c' => .arr (xs.set i c'))
      | none => .error (.pointerErr (str "index out of range"))
    | none => .error (.pointerErr (str "invalid array index"))
  | _, _ :: _, _ => .error (.pointerErr (str "cannot resolve pointer in a non-container"))

/-- RFC 6902 `remove`: delete the addressed key or index. -/
def jpRemove : Json → List PyStr → Except PyErr Json
  | _, [] => .error (.jsonPatchErr (str "Cannot remove the root of the document"))
  | .obj fs, [t] =>
    if hasKey t fs then .ok (.obj (eraseKey t fs))
    else .error (.jsonPatchErr (str "Cannot remove a non-existent object member"))
  | .arr xs, [t] =>
    match parseArrIndex t with
    | some i =>
      if i < xs.length then .ok (.arr (xs.eraseIdx i))
      else .error (.jsonPatchErr (str "Cannot remove a non-existent array item"))
    | none => .error (.pointerErr (str "invalid array index"))
  | .obj fs, t :: t2 :: ts =>
    match getKey t fs with
    | some c => (jpRemove c (t2 :: ts)).map (fun c' => .obj (dictInsert t c' fs))
    | none => .error (.pointerErr (str "member not found"))
  | .arr xs, t :: t2 :: ts =>
    match parseArrIndex t with
    | some i =>
      match xs.get? i with
      | some c => (jpRemove c (t2 :: ts)).map (fun c' => .arr (xs.set i c'))
      | none => .error (.pointerErr (str "index out of range"))
    | none => .error (.pointerErr (str "invalid array index"))
  | _, _ :: _ => .error (.pointerErr (str "cannot resolve pointer in a non-container"))

/-- Fetch the pointer tokens of the `path` member of an operation. -/
def opGetPath (fs : List (PyStr × Json)) : Except PyErr (List PyStr) :=
  match getKey (str "path") fs with
  | some (.str p) => ptrTokens p
  | some _ => .error (.pointerErr (str "path must be a string"))
  | none => .error (.jsonPatchErr (str "Operation does not contain a path member"))

/-- Fetch the `value` member of an operation. -/
def opGetValue (fs : List (PyStr × Json)) : Except PyErr Json :=
  match getKey (str "value") fs with
  | some v => .ok v
  | none => .error (.jsonPatchErr (str "The operation does not contain a value member"))

/-- Fetch the pointer tokens of the `from` member of an operation. -/
def opGetFrom (fs : List (PyStr × Json)) : Except PyErr (List PyStr) :=
  match getKey (str "from") fs with
  | some (.str p) => ptrTokens p
  | some _ => .error (.pointerErr (str "from must be a string"))
  | none => .error (.jsonPatchErr (str "The operation does not contain a from member"))

/-- Apply a single RFC 6902 operation to a document. -/
def applyOperation (d : Json) (op : Json) : Except PyErr Json :=
  match op with
  | .obj fs =>
    match getKey (str "op") fs with
    | some (.str opname) =>
      if opname = str "add" then do
        jpAdd d (← opGetPath fs) (← opGetValue fs)
      else if opname = str "replace" then do
        jpReplace d (← opGetPath fs) (← opGetValue fs)
      else if opname = str "remove" then do
        jpRemove d (← opGetPath fs)
      else if opname = str "test" then do
        let cur ← jpGet d (← opGetPath fs)
        let v ← opGetValue fs
        if cur = v then .ok d
        else .error (.jsonPatchErr (str "Test operation failed"))
      else if opname = str "move" then do
        let src ← opGetFrom fs
        let dst ← opGetPath fs
        let v ← jpGet d src
        let d1 ← jpRemove d src
        jpAdd d1 dst v
      else if opname = str "copy" then do
        let src ← opGetFrom fs
        let dst ← opGetPath fs
        let v ← jpGet d src
        jpAdd d dst v
      else .error (.jsonPatchErr (str "Unknown operation"))
    | some _ => .error (.jsonPatchErr (str "Operation must be a string"))
    | none => .error (.jsonPatchErr (str "Operation does not contain an op member"))
  | _ => .error (.jsonPatchErr (str "Operation is not a dict"))

/-- Apply a list of operations left to right. -/
def applyOps : List Json → Json → Except PyErr Json
  | [], d => .ok d
  | op :: ops, d =>
    match applyOperation d op with
    | .ok d' => applyOps ops d'
    | .error e => .error e

/-- State of the (mutable) object after the maximal successful run of
operations — what an `in_place=True` application leaves behind on
failure. -/
def applyOpsState : List Json → Json → Json
  | [], d => d
  | op :: ops, d =>
    match applyOperation d op with
    | .ok d' => applyOpsState ops d'
    | .error _ => d

/-- `JsonPatch(ops).apply(doc, in_place)` in state-passing form: the
result together with the post-call state of the caller's `doc`.  With
`in_place=False` the library applies the operations to a deep copy, so
the argument is left untouched. -/
def jsonPatchApplyS (in_place : Bool) (ops : List Json) (doc : Json) :
    Except PyErr Json × Json :=
  (applyOps ops doc, if in_place then applyOpsState ops doc else doc)

/-! ## core/patch_generator.py: validate_patch and apply_patch -/

/-- The two exception handlers of `validate_patch` (lines 48-51):
`except jsonpatch.JsonPatchException` then `except Exception`. -/
def validateErrMsg : PyErr → PyStr
  | .jsonPatchErr m => str "Invalid patch: " ++ m
  | .pointerErr m => str "Unexpected error: " ++ m
  | .valueErr m => str "Unexpected error: " ++ m
  | .typeErr m => str "Unexpected error: " ++ m

/-- `validate_patch` (patch_generator.py lines 18-51), assuming the
jsonpatch dependency is importable.  State-passing: the second component
is the post-call state of `document` (the dry run passes
`in_place=False`). -/
def validate_patch (patch document : Json) : (Bool × PyStr) × Json :=
  match patch with
  | .arr ops =>
    match document with
    | .obj _ =>
      match jsonPatchApplyS false ops document with
      | (.ok _, d') => ((true, []), d')
      | (.error e, d') => ((false, validateErrMsg e), d')
    | _ => ((false, str "Document must be a dictionary"), document)
  | _ => ((false, str "Patch must be a list of operations"), document)

/-- `apply_patch` (patch_generator.py lines 54-81): raises `ValueError`
on a non-list patch or non-dict document, otherwise calls
`jsonpatch.apply_patch(document, patch)` (whose `in_place` defaults to
`False`). -/
def apply_patch (patch document : Json) : Except PyErr Json × Json :=
  match patch with
  | .arr ops =>
    match document with
    | .obj _ => jsonPatchApplyS false ops document
    | _ => (.error (.valueErr (str "Document must be a dictionary")), document)
  | _ => (.error (.valueErr (str "Patch must be a list of operations")), document)

/-! ## core/prompt_builder.py -/

/-- `json.dumps(v, indent=2)`: spaces of indentation. -/
def indentN (n : Nat) : PyStr := List.replicate n ' '

mutual

/-- `json.dumps(v, indent=2)` at a given indentation level (separators
default to `(',', ': ')` when an indent is given). -/
def dumpsInd : Nat → Json → PyStr
  | _, .null => str "null"
  | _, .bool true => str "true"
  | _, .bool false => str "false"
  | _, .num n => intStr n
  | _, .str s => '"' :: (escStr s ++ ['"'])
  | lvl, .arr xs =>
    if xs.isEmpty then str "[]"
    else '[' :: '\n' :: (dumpsIndItems (lvl + 2) xs ++ '\n' :: (indentN lvl ++ [']']))
  | lvl, .obj fs =>
    if fs.isEmpty then str "\x7b\x7d"
    else '\x7b' :: '\n' :: (dumpsIndFields (lvl + 2) fs ++ '\n' :: (indentN lvl ++ ['\x7d']))

/-- Indented array elements, one per line, comma-separated. -/
def dumpsIndItems : Nat → List Json → PyStr
  | _, [] => []
  | lvl, x :: xs => indentN lvl ++ (dumpsInd lvl x ++ dumpsIndItemsTail lvl xs)

/-- Comma-and-newline prefixed remainder of an indented element list. -/
def dumpsIndItemsTail : Nat → List Json → PyStr
  | _, [] => []
  | lvl, x :: xs =>
    ',' :: '\n' :: (indentN lvl ++ (dumpsInd lvl x ++ dumpsIndItemsTail lvl xs))

/-- Indented object fields, one per line, comma-separated. -/
def dumpsIndFields : Nat → List (PyStr × Json) → PyStr
  | _, [] => []
  | lvl, (k, v) :: fs =>
    indentN lvl ++ '"' :: (escStr k ++ '"' :: ':' :: ' ' ::
      (dumpsInd lvl v ++ dumpsIndFieldsTail lvl fs))

/-- Comma-and-newline prefixed remainder of an indented field list. -/
def dumpsIndFieldsTail : Nat → List (PyStr × Json) → PyStr
  | _, [] => []
  | lvl, (k, v) :: fs =>
    ',' :: '\n' :: (indentN lvl ++ '"' :: (escStr k ++ '"' :: ':' :: ' ' ::
      (dumpsInd lvl v ++ dumpsIndFieldsTail lvl fs)))

end

/-- Drop instruction fields (keys starting with `_`) from a field list. -/
def dropInstructionFields (fs : List (PyStr × Json)) : List (PyStr × Json) :=
  fs.filter (fun f => !(f.1.head? = some '_'))

/-- Clean the nested `scope` object if it is a dict. -/
def cleanScope (v : Json) : Json :=
  match v with
  | .obj sfs => .obj (dropInstructionFields sfs)
  | other => other

/-- The document-cleaning step of `build_update_prompt` (prompt_builder.py
lines 128-138): drop `_`-prefixed keys at the top level and inside
`scope`. -/
def cleanDocument (d : Json) : Json :=
  match d with
  | .obj fs =>
    .obj ((dropInstructionFields fs).map
      (fun f => if f.1 = str "scope" then (f.1, cleanScope f.2) else f))
  | other => other

/-- `build_system_prompt` (prompt_builder.py lines 12-110). -/
def build_system_prompt : PyStr := str
"You are a process documentation assistant. Extract structured information from transcribed speech and generate JSON Patch operations (RFC 6902) to update the process document.

**Document Schema:**

The document follows this structure:

- **process_name** (string): Short, descriptive name for the process (e.g., \"New Customer Onboarding\")

- **process_goal** (string): What this process aims to achieve - the primary objective

- **scope** (object):
  - **start_trigger** (string): What event or condition initiates this process
  - **end_condition** (string): What condition marks the completion of this process
  - **in_scope** (array of strings): What is included in this process
  - **out_of_scope** (array of strings): What is explicitly excluded from this process

- **actors** (array of strings): People, roles, or personas involved (e.g., \"Sales rep\", \"Customer Success\", \"Customer\")

- **systems** (array of strings): Tools, platforms, or systems used (e.g., \"Salesforce\", \"Slack\", \"Gmail\")

- **main_flow** (array of step objects): Sequential steps in the process. Each step object has:
  - **id** (string): Step identifier (e.g., \"S1\", \"S2\", \"S3\")
  - **description** (string): What happens in this step
  - **actor** (string): Who performs this step
  - **system** (string): What tool/platform is used (optional)

- **exceptions** (array of exception objects): Error cases, alternative paths, or conditional logic. Each exception object has:
  - **condition** (string): When this exception occurs
  - **action** (string): What to do when this exception happens

- **metrics** (array of metric objects): KPIs, measurements, or success criteria. Each metric object has:
  - **name** (string): Name of the metric
  - **description** (string): What this metric measures

- **open_questions** (array of strings): Uncertainties, ambiguities, or questions that need clarification

**JSON Patch Operations (RFC 6902):**

You must generate valid JSON Patch operations to update the document:

- **Add to array**: `\x7b\"op\": \"add\", \"path\": \"/actors/-\", \"value\": \"New Actor\"\x7d`
- **Add to nested array**: `\x7b\"op\": \"add\", \"path\": \"/main_flow/-\", \"value\": \x7b\"id\": \"S1\", \"description\": \"...\", \"actor\": \"...\", \"system\": \"...\"\x7d\x7d`
- **Replace field**: `\x7b\"op\": \"replace\", \"path\": \"/process_name\", \"value\": \"New Name\"\x7d`
- **Replace nested field**: `\x7b\"op\": \"replace\", \"path\": \"/scope/start_trigger\", \"value\": \"New trigger\"\x7d`
- **Replace array item**: `\x7b\"op\": \"replace\", \"path\": \"/main_flow/0/description\", \"value\": \"Updated description\"\x7d`
- **Remove from array**: `\x7b\"op\": \"remove\", \"path\": \"/actors/2\"\x7d`
- **Remove field**: `\x7b\"op\": \"remove\", \"path\": \"/open_questions/0\"\x7d`

**Instructions:**

1. **Extract information** from the transcription tail:
   - Identify actors (people/roles) mentioned
   - Identify systems (tools/platforms) mentioned
   - Identify process steps and their sequence
   - Identify the process name and goal if mentioned
   - Identify scope (what starts it, when it ends, what\x27s included/excluded)
   - Identify exceptions, metrics, and questions

2. **Detect corrections and replacements**:
   - Listen for phrases like \"actually\", \"change that to\", \"I meant\", \"delete\", \"remove\"
   - When correction is detected, use \"replace\" or \"remove\" operations
   - Example: \"The process starts when... actually, change that - it starts when...\" â†’ use replace operation

3. **Generate minimal patch operations**:
   - Only include operations for NEW or CHANGED information
   - Don\x27t regenerate patches for information already in the document
   - Use \"add\" for new items, \"replace\" for corrections, \"remove\" for deletions
   - For arrays, use path \"/array/-\" to append new items

4. **Return format**:
   - Return ONLY a valid JSON array of patch operations
   - Do NOT include explanatory text before or after the JSON
   - Each operation must have \"op\", \"path\", and usually \"value\" fields
   - Ensure all JSON is properly formatted

**Example Response:**

```json
[
  \x7b\"op\": \"replace\", \"path\": \"/process_name\", \"value\": \"Customer Onboarding\"\x7d,
  \x7b\"op\": \"add\", \"path\": \"/actors/-\", \"value\": \"Sales Team\"\x7d,
  \x7b\"op\": \"add\", \"path\": \"/main_flow/-\", \"value\": \x7b\"id\": \"S1\", \"description\": \"Receive new lead\", \"actor\": \"Sales Team\", \"system\": \"Salesforce\"\x7d\x7d,
  \x7b\"op\": \"replace\", \"path\": \"/scope/start_trigger\", \"value\": \"Sales receives a lead\"\x7d
]
```
"

/-- The user-turn text of `build_update_prompt` (prompt_builder.py lines
144-150). -/
def userContentOf (transcription_tail document_json : PyStr) : PyStr :=
  str "Current document:\n" ++ document_json ++
  str "\n\nRecent transcription (last 250 words):\n" ++ transcription_tail ++
  str "\n\nBased on the transcription, generate JSON Patch operations to update the document. Extract any new information about the process name, goal, scope, actors, systems, steps, exceptions, metrics, or questions. If you detect corrections (e.g., \"actually, change that to...\"), use replace or remove operations. Return ONLY the JSON array of patch operations, no other text."

/-- `build_update_prompt` (prompt_builder.py lines 113-161).  Note the
signature: it takes exactly two parameters — transcription tail and
current document — and its user turn never mentions patch history. -/
def build_update_prompt (transcription_tail : PyStr) (current_document : Json) :
    List (PyStr × PyStr) :=
  [(str "system", build_system_prompt),
   (str "user",
    userContentOf transcription_tail (dumpsInd 0 (cleanDocument current_document)))]

/-! ## backend/services/llm_service.py -/

/-- Number of positional parameters of `build_update_prompt`
(prompt_builder.py line 113). -/
def build_update_prompt_param_count : Nat := 2

/-- The call `build_update_prompt(transcription_tail, current_document,
patch_history)` at llm_service.py line 56 passes three positional
arguments; Python raises `TypeError` when the callee takes two. -/
def call_build_update_prompt_3args (tail : PyStr) (doc : Json)
    (_history : Option (List (List Json))) : Except PyErr (List (PyStr × PyStr)) :=
  if build_update_prompt_param_count = 3 then .ok (build_update_prompt tail doc)
  else .error (.typeErr
    (str "build_update_prompt() takes 2 positional arguments but 3 were given"))

/-- The body of the `try` block of `LLMService.process_transcription`
(llm_service.py lines 54-120).  `llm_content` models the external
generator's response content (`None` when the API returns no content);
the generator is only consulted after the prompt is built. -/
def process_transcription_try (tail : PyStr) (doc : Json)
    (history : Option (List (List Json))) (llm_content : Option PyStr) :
    Except PyErr (List Json) := do
  let _messages ← call_build_update_prompt_3args tail doc history
  match llm_content with
  | none => .ok []
  | some content =>
    if content = [] then .ok []
    else
      match parse_llm_response content with
      | .error _ => .error (.valueErr (str "Failed to parse LLM response"))
      | .ok patch_ops =>
        if ((validate_patch (.arr patch_ops) doc).1).1 then .ok patch_ops
        else .ok []

/-- `LLMService.process_transcription` (llm_service.py lines 30-125): an
empty/whitespace tail short-circuits to `[]`; any exception escaping the
`try` block is caught by the outer handler, which returns `[]` (graceful
degradation). -/
def process_transcription (tail : PyStr) (doc : Json)
    (history : Option (List (List Json))) (llm_content : Option PyStr) :
    List Json :=
  if tail = [] || pyStrip tail = [] then []
  else
    match process_transcription_try tail doc history llm_content with
    | .ok p => p
    | .error _ => []

/-! ## Decidability instance and concrete sample values used in witnesses -/

instance {ε α : Type} [DecidableEq ε] [DecidableEq α] : DecidableEq (Except ε α) :=
  fun a b =>
    match a, b with
    | .ok x, .ok y => if h : x = y then isTrue (by rw [h]) else isFalse (by simp [h])
    | .error x, .error y => if h : x = y then isTrue (by rw [h]) else isFalse (by simp [h])
    | .ok _, .error _ => isFalse (by simp)
    | .error _, .ok _ => isFalse (by simp)

/-- The add operation appending "Customer" to the end of the actors
array (path `/actors` plus the append marker). -/
def sampleAddActor : Json :=
  .obj [(str "op", .str (str "add")), (str "path", .str (str "/actors/-")),
        (str "value", .str (str "Customer"))]

/-- `{"op": "add", "path": "/a", "value": 1}`. -/
def sampleAddA : Json :=
  .obj [(str "op", .str (str "add")), (str "path", .str (str "/a")),
        (str "value", .num 1)]

/-- `{"op": "replace", "path": "/a_add_0", "value": 2}`: its path collides
with the composite dict key `normalize_patch` generates for `sampleAddA`. -/
def sampleReplaceColl : Json :=
  .obj [(str "op", .str (str "replace")), (str "path", .str (str "/a_add_0")),
        (str "value", .num 2)]

/-- `{"op": "replace", "path": "/nonexistent", "value": "x"}`. -/
def sampleBadReplace : Json :=
  .obj [(str "op", .str (str "replace")), (str "path", .str (str "/nonexistent")),
        (str "value", .str (str "x"))]

/-- `{"op": "remove", "path": "/a"}`. -/
def sampleRemoveA : Json :=
  .obj [(str "op", .str (str "remove")), (str "path", .str (str "/a"))]

/-- `{"actors": ["Sales"]}`. -/
def sampleDocActors : Json := .obj [(str "actors", .arr [.str (str "Sales")])]

end S2D

namespace S2D

/-! # Theorems -/

/-! ## General helper lemmas -/

theorem pySplit_nil : pySplit [] = [] := rfl

theorem pyStrip_nil : pyStrip [] = [] := rfl

theorem pyTakeLastSlice_eq_drop {w : Nat} (hw : w ≠ 0) (xs : List α) :
    pyTakeLastSlice w xs = xs.drop (xs.length - w) := by
  simp [pyTakeLastSlice, hw]

theorem pyTakeLastSlice_length_le {w : Nat} (hw : w ≠ 0) (xs : List α) :
    (pyTakeLastSlice w xs).length ≤ w := by
  rw [pyTakeLastSlice_eq_drop hw]
  simp only [List.length_drop]
  omega

theorem pyTakeLastSlice_of_length_le {w : Nat} (xs : List α) (h : xs.length ≤ w) :
    pyTakeLastSlice w xs = xs := by
  unfold pyTakeLastSlice
  split
  · rfl
  · have : xs.length - w = 0 := by omega
    rw [this, List.drop_zero]

theorem pyTakeLastSlice_absorb {w : Nat} (hw : w ≠ 0) (xs ys : List α) :
    pyTakeLastSlice w (pyTakeLastSlice w xs ++ ys) = pyTakeLastSlice w (xs ++ ys) := by
  by_cases hlen : xs.length ≤ w
  · rw [pyTakeLastSlice_of_length_le xs hlen]
  · rw [pyTakeLastSlice_eq_drop hw xs, pyTakeLastSlice_eq_drop hw,
      pyTakeLastSlice_eq_drop hw]
    have l1 : (List.drop (xs.length - w) xs).length = w := by
      simp only [List.length_drop]
      omega
    have e1 : (List.drop (xs.length - w) xs ++ ys).length - w = ys.length := by
      simp only [List.length_append, l1]
      omega
    rw [e1]
    rw [List.drop_append_eq_append_drop, List.drop_append_eq_append_drop, List.drop_drop]
    have e2 : xs.length - w + ys.length = (xs ++ ys).length - w := by
      simp only [List.length_append]
      omega
    have e3 : ys.length - (List.drop (xs.length - w) xs).length
        = (xs ++ ys).length - w - xs.length := by
      simp only [List.length_append, l1]
      omega
    rw [e2, e3]

/-! ## C5 / C6: the transcription buffer -/

/-- C5: for every buffer with a positive window size, `get_tail` returns
the last `window_size` whitespace tokens space-joined when there are more
than `window_size` of them, returns `full_text` unchanged otherwise, and
never changes the buffer state; in particular the window-5 scenario
evaluates to "two three four five six". -/
theorem get_tail_window :
    (∀ b : TranscriptionBuffer, 1 ≤ b.window_size →
      (b.window_size < (pySplit b.full_text).length →
        b.get_tail =
          joinSpace ((pySplit b.full_text).drop
            ((pySplit b.full_text).length - b.window_size))) ∧
      ((pySplit b.full_text).length ≤ b.window_size → b.get_tail = b.full_text) ∧
      b.get_tailS = (b.get_tail, b)) ∧
    ((((TranscriptionBuffer.init 5).append (str "one two three")).2.append
        (str "four five six")).2.get_tail = str "two three four five six") := by
  constructor
  · intro b hw
    refine ⟨?_, ?_, rfl⟩
    · intro hgt
      unfold TranscriptionBuffer.get_tail
      have hne : b.full_text ≠ [] := by
        intro h
        rw [h, pySplit_nil] at hgt
        simp at hgt
      rw [if_neg hne, if_neg (by omega)]
      rw [pyTakeLastSlice_eq_drop (by omega)]
    · intro hle
      unfold TranscriptionBuffer.get_tail
      by_cases hne : b.full_text = []
      · rw [if_pos hne, hne]
      · rw [if_neg hne, if_pos hle]
  · decide

/-- C5 witness: the general part of `get_tail_window` applied to the
scenario buffer, whose six tokens exceed the window of five. -/
theorem get_tail_window_witness :
    ({ full_text := str "one two three four five six", window_size := 5 } :
        TranscriptionBuffer).get_tail =
      joinSpace ((pySplit (str "one two three four five six")).drop
        ((pySplit (str "one two three four five six")).length - 5)) :=
  (get_tail_window.1 _ (by decide)).1 (by decide)

/-- C6: `append` of a whitespace-only string returns false and leaves the
buffer unchanged; otherwise it returns true and extends `full_text` with
a single separating space (no separator when the buffer was empty), so
`full_text` only grows. -/
theorem append_contract :
    ∀ (b : TranscriptionBuffer) (text : PyStr),
      (pyStrip text = [] → b.append text = (false, b)) ∧
      (pyStrip text ≠ [] →
        (b.append text).1 = true ∧
        ((b.append text).2).full_text =
          (if b.full_text = [] then pyStrip text
           else b.full_text ++ ' ' :: pyStrip text) ∧
        ((b.append text).2).window_size = b.window_size ∧
        ∃ suffix, ((b.append text).2).full_text = b.full_text ++ suffix) := by
  intro b text
  constructor
  · intro h
    unfold TranscriptionBuffer.append
    rw [h]
    simp
  · intro h
    have htext : text ≠ [] := by
      intro he
      rw [he] at h
      exact h pyStrip_nil
    unfold TranscriptionBuffer.append
    rw [if_neg (by simp [htext, h])]
    by_cases hft : b.full_text = []
    · rw [if_pos hft]
      exact ⟨rfl, by rw [if_pos hft], rfl, ⟨pyStrip text, by simp [hft]⟩⟩
    · rw [if_neg hft]
      exact ⟨rfl, by rw [if_neg hft], rfl, ⟨' ' :: pyStrip text, rfl⟩⟩

/-- C6 witness: appending "  hi " to a buffer holding "a" yields
"a hi". -/
theorem append_contract_witness :
    (({ full_text := str "a", window_size := 5 } :
      TranscriptionBuffer).append (str "  hi ")).2.full_text = str "a hi" := by
  have h := (append_contract { full_text := str "a", window_size := 5 }
    (str "  hi ")).2 (by decide)
  rw [h.2.1]
  decide

/-! ## C9: the patch history -/

theorem addAllPatches_characterization (max : Nat) (hmax : 1 ≤ max) :
    ∀ (adds : List (List Json)) (h : List (List Json)), h.length ≤ max →
      addAllPatches h adds max =
        pyTakeLastSlice max (h ++ adds.filter (fun a => !(a = []))) := by
  intro adds
  induction adds with
  | nil =>
    intro h hh
    simp only [addAllPatches, List.foldl_nil, List.filter_nil, List.append_nil]
    exact (pyTakeLastSlice_of_length_le h hh).symm
  | cons a rest ih =>
    intro h hh
    have step : addAllPatches h (a :: rest) max
        = addAllPatches (add_patch_to_history h a max) rest max := rfl
    rw [step]
    by_cases ha : a = []
    · have hskip : add_patch_to_history h a max = h := by
        unfold add_patch_to_history
        rw [if_pos ha]
      have hfil : (a :: rest).filter (fun a => !(a = [])) =
          rest.filter (fun a => !(a = [])) := by
        simp [List.filter_cons, ha]
      rw [hskip, hfil, ih h hh]
    · have hfil : (a :: rest).filter (fun a => !(a = [])) =
          a :: rest.filter (fun a => !(a = [])) := by
        simp [List.filter_cons, ha]
      by_cases hlt : max < (h ++ [a]).length
      · have hstep : add_patch_to_history h a max = pyTakeLastSlice max (h ++ [a]) := by
          unfold add_patch_to_history
          rw [if_neg ha, if_pos hlt]
        rw [hstep, ih _ (pyTakeLastSlice_length_le (by omega) _),
          pyTakeLastSlice_absorb (by omega), hfil]
        rw [List.append_assoc]
        rfl
      · have hstep : add_patch_to_history h a max = h ++ [a] := by
          unfold add_patch_to_history
          rw [if_neg ha, if_neg hlt]
        have hlen : (h ++ [a]).length ≤ max := by
          simp only [List.length_append, List.length_singleton] at hlt ⊢
          omega
        rw [hstep, ih _ hlen, hfil, List.append_assoc]
        rfl

/-- C9 amended: for every positive maximum count, the history after any
sequence of additions is exactly the trailing window (length at most
`max_count`) of the non-empty patches in addition order — a bounded FIFO
with the oldest entries evicted first; with `max_count = 5`, six
successful additions leave exactly the five most recent patches in
order. -/
theorem history_bounded_fifo :
    (∀ (adds : List (List Json)) (max_count : Nat), 1 ≤ max_count →
      addAllPatches [] adds max_count =
        pyTakeLastSlice max_count (adds.filter (fun a => !(a = []))) ∧
      (addAllPatches [] adds max_count).length ≤ max_count) ∧
    (addAllPatches []
        [[.num 1], [.num 2], [.num 3], [.num 4], [.num 5], [.num 6]] 5 =
      [[.num 2], [.num 3], [.num 4], [.num 5], [.num 6]]) := by
  constructor
  · intro adds max hmax
    have h := addAllPatches_characterization max hmax adds [] (by simp)
    simp only [List.nil_append] at h
    refine ⟨h, ?_⟩
    rw [h]
    exact pyTakeLastSlice_length_le (by omega) _
  · decide

/-- C9 counterexample: with `max_count = 0`, the Python slice
`history[-0:]` keeps the whole list, so one successful addition makes the
history length 1, exceeding the maximum count 0. -/
theorem history_cap_zero_cex :
    add_patch_to_history [] [sampleAddA] 0 = [[sampleAddA]] ∧
    ¬ (add_patch_to_history [] [sampleAddA] 0).length ≤ 0 := by
  decide

/-- C9 witness: the general statement applied to the six-addition
scenario with cap 5. -/
theorem history_bounded_fifo_witness :
    addAllPatches [] [[.num 1], [.num 2], [.num 3], [.num 4], [.num 5], [.num 6]] 5 =
      pyTakeLastSlice 5
        (([[.num 1], [.num 2], [.num 3], [.num 4], [.num 5], [.num 6]] :
          List (List Json)).filter (fun a => !(a = []))) ∧
    (addAllPatches [] [[.num 1], [.num 2], [.num 3], [.num 4], [.num 5], [.num 6]] 5).length ≤ 5 :=
  history_bounded_fifo.1 _ 5 (by decide)

/-! ## C8: normalize_patch -/

/-- C8: evaluating `normalize_patch` at the failing input
`[{add to /a}, {replace at /a_add_0}]`: the composite dict key generated
for the add operation (`"/a" + "_add_" + "0"`) collides with the replace
operation's literal path, so the replace overwrites the stored add and
the add operation is dropped from the result — the code's own comment
says add operations are stored under unique keys and only replaces are
collapsed. -/
theorem normalize_patch_collision :
    normalize_patch [sampleAddA, sampleReplaceColl] = .ok [sampleReplaceColl] := by
  decide

/-! ## C1: the orchestrator -/

/-- C1: `process_transcription` returns the empty patch for every input:
the call `build_update_prompt(transcription_tail, current_document,
patch_history)` passes three positional arguments to a two-parameter
function, so the `try` block raises `TypeError` before the generator is
ever consulted, and the catch-all handler returns `[]` — the generation
request is never built and a parsed, validated patch is never returned. -/
theorem process_transcription_always_empty :
    ∀ (tail : PyStr) (doc : Json) (history : Option (List (List Json)))
      (content : Option PyStr),
      process_transcription tail doc history content = [] := by
  intro tail doc history content
  unfold process_transcription
  split
  · rfl
  · rfl

/-! ## C3 / C4 / C10: validate_patch and apply_patch -/

/-- C3: if `validate_patch` returns `(True, "")` then `apply_patch` on
the same arguments succeeds (both run the same RFC 6902 application with
`in_place=False` on the same patch and document). -/
theorem validate_apply_agree :
    ∀ (p d : Json), (validate_patch p d).1 = (true, []) →
      ∃ v, (apply_patch p d).1 = .ok v := by
  intro p d h
  cases p with
  | arr ops =>
    cases d with
    | obj fs =>
      simp only [validate_patch, jsonPatchApplyS] at h
      cases happ : applyOps ops (Json.obj fs) with
      | ok v =>
        refine ⟨v, ?_⟩
        simp [apply_patch, jsonPatchApplyS, happ]
      | error e =>
        rw [happ] at h
        simp at h
    | null => simp [validate_patch] at h
    | bool b => simp [validate_patch] at h
    | num n => simp [validate_patch] at h
    | str s => simp [validate_patch] at h
    | arr xs => simp [validate_patch] at h
  | null => simp [validate_patch] at h
  | bool b => simp [validate_patch] at h
  | num n => simp [validate_patch] at h
  | str s => simp [validate_patch] at h
  | obj fs => simp [validate_patch] at h

/-- C3 witness: a valid append-to-actors patch validates and applies. -/
theorem validate_apply_agree_witness :
    ∃ v, (apply_patch (.arr [sampleAddActor]) sampleDocActors).1 = .ok v :=
  validate_apply_agree (.arr [sampleAddActor]) sampleDocActors (by decide)

/-- C4: neither `validate_patch` nor `apply_patch` mutates its `document`
argument, whether or not the operation succeeds: the post-call state of
the argument equals its pre-call state (both call the library with
`in_place=False`, which works on a deep copy). -/
theorem validate_apply_no_mutation :
    ∀ (p d : Json), (validate_patch p d).2 = d ∧ (apply_patch p d).2 = d := by
  intro p d
  cases p with
  | arr ops =>
    cases d with
    | obj fs =>
      constructor
      · simp only [validate_patch, jsonPatchApplyS]
        cases applyOps ops (Json.obj fs) <;> rfl
      · simp [apply_patch, jsonPatchApplyS]
    | null => exact ⟨rfl, rfl⟩
    | bool b => exact ⟨rfl, rfl⟩
    | num n => exact ⟨rfl, rfl⟩
    | str s => exact ⟨rfl, rfl⟩
    | arr xs => exact ⟨rfl, rfl⟩
  | null => exact ⟨rfl, rfl⟩
  | bool b => exact ⟨rfl, rfl⟩
  | num n => exact ⟨rfl, rfl⟩
  | str s => exact ⟨rfl, rfl⟩
  | obj fs => exact ⟨rfl, rfl⟩

/-- C10: `validate_patch` is total — on every argument pair it returns a
(bool, message) pair with the document unchanged: non-list patches and
non-dict documents yield `(False, message)`, and every error of the
dry-run application is caught and converted to `(False, message)` by the
two exception handlers. -/
theorem validate_patch_total :
    ∀ (p d : Json),
      (p.isArr = false →
        validate_patch p d = ((false, str "Patch must be a list of operations"), d)) ∧
      (p.isArr = true → d.isObj = false →
        validate_patch p d = ((false, str "Document must be a dictionary"), d)) ∧
      (∀ ops, p = .arr ops → d.isObj = true →
        (∃ e, applyOps ops d = .error e ∧
          validate_patch p d = ((false, validateErrMsg e), d)) ∨
        (∃ v, applyOps ops d = .ok v ∧
          validate_patch p d = ((true, []), d))) := by
  intro p d
  refine ⟨?_, ?_, ?_⟩
  · intro hp
    cases p with
    | arr ops => simp [Json.isArr] at hp
    | null => cases d <;> rfl
    | bool b => cases d <;> rfl
    | num n => cases d <;> rfl
    | str s => cases d <;> rfl
    | obj fs => cases d <;> rfl
  · intro hp hd
    cases p with
    | arr ops =>
      cases d with
      | obj fs => simp [Json.isObj] at hd
      | null => rfl
      | bool b => rfl
      | num n => rfl
      | str s => rfl
      | arr xs => rfl
    | null => simp [Json.isArr] at hp
    | bool b => simp [Json.isArr] at hp
    | num n => simp [Json.isArr] at hp
    | str s => simp [Json.isArr] at hp
    | obj fs => simp [Json.isArr] at hp
  · intro ops hp hd
    subst hp
    cases d with
    | obj fs =>
      cases happ : applyOps ops (Json.obj fs) with
      | ok v =>
        right
        exact ⟨v, rfl, by simp [validate_patch, jsonPatchApplyS, happ]⟩
      | error e =>
        left
        exact ⟨e, rfl, by simp [validate_patch, jsonPatchApplyS, happ]⟩
    | null => simp [Json.isObj] at hd
    | bool b => simp [Json.isObj] at hd
    | num n => simp [Json.isObj] at hd
    | str s => simp [Json.isObj] at hd
    | arr xs => simp [Json.isObj] at hd

/-- C10 witness: a non-list patch yields the fixed message, and a replace
of a nonexistent member is a caught dry-run error yielding false. -/
theorem validate_patch_total_witness :
    validate_patch (.num 0) (.obj []) =
      ((false, str "Patch must be a list of operations"), .obj []) ∧
    ((∃ e, applyOps [sampleBadReplace]
          (.obj [(str "process_name", .str (str "Test"))]) = .error e ∧
        validate_patch (.arr [sampleBadReplace])
            (.obj [(str "process_name", .str (str "Test"))]) =
          ((false, validateErrMsg e), .obj [(str "process_name", .str (str "Test"))])) ∨
      (∃ v, applyOps [sampleBadReplace]
          (.obj [(str "process_name", .str (str "Test"))]) = .ok v ∧
        validate_patch (.arr [sampleBadReplace])
            (.obj [(str "process_name", .str (str "Test"))]) =
          ((true, []), .obj [(str "process_name", .str (str "Test"))]))) :=
  ⟨(validate_patch_total (.num 0) (.obj [])).1 rfl,
   (validate_patch_total (.arr [sampleBadReplace])
     (.obj [(str "process_name", .str (str "Test"))])).2.2 _ rfl rfl⟩

/-! ## C7: parse_llm_response error behaviour -/

theorem checkOps_eq_none_iff :
    ∀ ops : List Json, checkOps ops = none ↔ ∀ op ∈ ops, opRejected op = false := by
  intro ops
  induction ops with
  | nil => simp [checkOps]
  | cons op rest ih =>
    cases op with
    | obj fs =>
      have key : (checkOps (Json.obj fs :: rest) = none) ↔
          (opRejected (Json.obj fs) = false ∧ checkOps rest = none) := by
        simp only [checkOps, opRejected]
        cases h1 : hasKey (str "op") fs <;>
          cases h2 : hasKey (str "path") fs <;>
            cases h3 : (!(getKey (str "op") fs = some (.str (str "remove")) ||
                getKey (str "op") fs = some (.str (str "test"))) &&
                !hasKey (str "value") fs) <;>
              simp [h1, h2, h3]
      rw [key, ih]
      constructor
      · intro hyp op' hmem
        cases List.mem_cons.mp hmem with
        | inl he => rw [he]; exact hyp.1
        | inr hm => exact hyp.2 op' hm
      · intro hall
        exact ⟨hall _ (List.mem_cons_self _ _),
          fun op' hm => hall op' (List.mem_cons_of_mem _ hm)⟩
    | null =>
      refine ⟨fun h => Option.noConfusion h, fun hall => ?_⟩
      have := hall _ (List.mem_cons_self _ _)
      simp [opRejected] at this
    | bool b =>
      refine ⟨fun h => Option.noConfusion h, fun hall => ?_⟩
      have := hall _ (List.mem_cons_self _ _)
      simp [opRejected] at this
    | num n =>
      refine ⟨fun h => Option.noConfusion h, fun hall => ?_⟩
      have := hall _ (List.mem_cons_self _ _)
      simp [opRejected] at this
    | str s =>
      refine ⟨fun h => Option.noConfusion h, fun hall => ?_⟩
      have := hall _ (List.mem_cons_self _ _)
      simp [opRejected] at this
    | arr xs =>
      refine ⟨fun h => Option.noConfusion h, fun hall => ?_⟩
      have := hall _ (List.mem_cons_self _ _)
      simp [opRejected] at this

/-- C7: `parse_llm_response` returns an empty patch (not an error) on
every whitespace-only input, and on other inputs fails exactly when the
selected substring is not valid JSON, is not an array, or some element
is not an object, lacks `op`, lacks `path`, or lacks `value` while its
`op` is neither `remove` nor `test`. -/
theorem parse_error_characterization :
    ∀ s : PyStr,
      (pyStrip s = [] → parse_llm_response s = .ok []) ∧
      (pyStrip s ≠ [] →
        ((∃ e, parse_llm_response s = .error e) ↔
          (loads (selectJsonStr s) = none ∨
           (∃ v, loads (selectJsonStr s) = some v ∧ v.isArr = false) ∨
           (∃ ops, loads (selectJsonStr s) = some (.arr ops) ∧
             ∃ op ∈ ops, opRejected op = true)))) := by
  intro s
  constructor
  · intro h
    unfold parse_llm_response
    rw [if_pos]
    simp [h]
  · intro h
    have hcond : ¬ (s = [] ∨ pyStrip s = []) := by
      rintro (he | he)
      · rw [he] at h
        exact h pyStrip_nil
      · exact h he
    have hp : parse_llm_response s =
        match loads (selectJsonStr s) with
        | none => .error (.valueErr (str "Failed to parse JSON from LLM response"))
        | some p =>
          match p with
          | .arr ops =>
            match checkOps ops with
            | some e => .error e
            | none => .ok ops
          | _ => .error (.valueErr (str "Parsed JSON is not an array")) := by
      unfold parse_llm_response
      rw [if_neg]
      simpa using hcond
    cases hl : loads (selectJsonStr s) with
    | none =>
      rw [hl] at hp
      constructor
      · intro _
        exact Or.inl rfl
      · intro _
        exact ⟨_, hp⟩
    | some v =>
      rw [hl] at hp
      cases v with
      | arr ops =>
        cases hc : checkOps ops with
        | some e =>
          simp only [hc] at hp
          constructor
          · intro _
            refine Or.inr (Or.inr ⟨ops, rfl, ?_⟩)
            by_contra hno
            push_neg at hno
            have hall : ∀ op ∈ ops, opRejected op = false := by
              intro op hm
              have := hno op hm
              revert this
              cases opRejected op <;> simp
            rw [(checkOps_eq_none_iff ops).mpr hall] at hc
            exact Option.noConfusion hc
          · intro _
            exact ⟨e, hp⟩
        | none =>
          simp only [hc] at hp
          constructor
          · intro ⟨e, he⟩
            rw [hp] at he
            exact Except.noConfusion he
          · rintro (h1 | ⟨v, h2, hv⟩ | ⟨ops', h3, op, hm, hop⟩)
            · exact Option.noConfusion h1
            · injection h2 with h2
              rw [← h2] at hv
              simp [Json.isArr] at hv
            · injection h3 with h3
              injection h3 with h3
              subst h3
              have := (checkOps_eq_none_iff ops).mp hc op hm
              rw [this] at hop
              exact Bool.noConfusion hop
      | null =>
        constructor
        · intro _
          exact Or.inr (Or.inl ⟨_, rfl, rfl⟩)
        · intro _
          exact ⟨_, hp⟩
      | bool b =>
        constructor
        · intro _
          exact Or.inr (Or.inl ⟨_, rfl, rfl⟩)
        · intro _
          exact ⟨_, hp⟩
      | num n =>
        constructor
        · intro _
          exact Or.inr (Or.inl ⟨_, rfl, rfl⟩)
        · intro _
          exact ⟨_, hp⟩
      | str t =>
        constructor
        · intro _
          exact Or.inr (Or.inl ⟨_, rfl, rfl⟩)
        · intro _
          exact ⟨_, hp⟩
      | obj fs =>
        constructor
        · intro _
          exact Or.inr (Or.inl ⟨_, rfl, rfl⟩)
        · intro _
          exact ⟨_, hp⟩

/-- C7 witness: whitespace-only input parses to the empty patch, and a
non-JSON input fails (its selected substring does not load). -/
theorem parse_error_characterization_witness :
    parse_llm_response (str "   ") = .ok [] ∧
    (∃ e, parse_llm_response (str "This is not JSON at all") = .error e) :=
  ⟨(parse_error_characterization (str "   ")).1 (by decide),
   ((parse_error_characterization (str "This is not JSON at all")).2
      (by decide)).mpr (Or.inl (by decide))⟩

/-! ## C2 groundwork: characters and digits -/

theorem charToNatOfNat {n : Nat} (h : n.isValidChar) : (Char.ofNat n).toNat = n := by
  unfold Char.ofNat
  rw [dif_pos h]
  rfl

theorem validChar_of_lt {n : Nat} (h : n < 0xd800) : n.isValidChar := Or.inl h

theorem charValidToNat (c : Char) : c.toNat.isValidChar := by
  have := c.valid
  unfold UInt32.isValidChar at this
  exact this

theorem charToNatInj {a b : Char} (h : a.toNat = b.toNat) : a = b := by
  apply Char.eq_of_val_eq
  apply UInt32.eq_of_toBitVec_eq
  apply BitVec.eq_of_toNat_eq
  exact h

theorem charOfNatToNat (c : Char) : Char.ofNat c.toNat = c := by
  apply charToNatInj
  exact charToNatOfNat (charValidToNat c)

theorem charNeOfToNatNe {a b : Char} (h : a.toNat ≠ b.toNat) : a ≠ b :=
  fun he => h (he ▸ rfl)

theorem digitChar_toNat {k : Nat} (h : k < 10) :
    (Char.ofNat (48 + k)).toNat = 48 + k :=
  charToNatOfNat (validChar_of_lt (by omega))

theorem isDigit_iff_toNat (c : Char) :
    isDigit c = true ↔ 48 ≤ c.toNat ∧ c.toNat ≤ 57 := by
  unfold isDigit
  simp

theorem digitsVal_append_singleton (l : PyStr) (d : Char) :
    digitsVal (l ++ [d]) = digitsVal l * 10 + digitVal d := by
  unfold digitsVal
  rw [List.foldl_append]
  rfl

theorem natDigitsFuel_spec :
    ∀ (fuel n : Nat), n < fuel →
      (∀ c ∈ natDigitsFuel fuel n, isDigit c = true) ∧
      digitsVal (natDigitsFuel fuel n) = n ∧
      natDigitsFuel fuel n ≠ [] ∧
      (1 ≤ n → ∃ c t, natDigitsFuel fuel n = c :: t ∧ c ≠ '0') := by
  intro fuel
  induction fuel with
  | zero => intro n h; omega
  | succ fuel ih =>
    intro n h
    by_cases h10 : n < 10
    · have hred : natDigitsFuel (fuel + 1) n = [Char.ofNat (48 + n)] := by
        unfold natDigitsFuel
        rw [if_pos h10]
      rw [hred]
      refine ⟨?_, ?_, by simp, ?_⟩
      · intro c hm
        rw [List.mem_singleton] at hm
        rw [hm, isDigit_iff_toNat, digitChar_toNat h10]
        omega
      · unfold digitsVal digitVal
        simp [digitChar_toNat h10]
      · intro hn
        refine ⟨_, _, rfl, ?_⟩
        apply charNeOfToNatNe
        rw [digitChar_toNat h10]
        have : ('0' : Char).toNat = 48 := by decide
        omega
    · have hdiv : n / 10 < fuel := by
        have := Nat.div_lt_self (by omega : 0 < n) (by omega : 1 < 10)
        omega
      have hred : natDigitsFuel (fuel + 1) n
          = natDigitsFuel fuel (n / 10) ++ [Char.ofNat (48 + n % 10)] := by
        rw [show natDigitsFuel (fuel + 1) n
            = if n < 10 then [Char.ofNat (48 + n)]
              else natDigitsFuel fuel (n / 10) ++ [Char.ofNat (48 + n % 10)] from rfl,
          if_neg h10]
      obtain ⟨hdig, hval, hne, hhead⟩ := ih (n / 10) hdiv
      rw [hred]
      have hmod : n % 10 < 10 := Nat.mod_lt _ (by omega)
      refine ⟨?_, ?_, by simp [hne], ?_⟩
      · intro c hm
        rw [List.mem_append] at hm
        cases hm with
        | inl hm => exact hdig c hm
        | inr hm =>
          rw [List.mem_singleton] at hm
          rw [hm, isDigit_iff_toNat, digitChar_toNat hmod]
          omega
      · rw [digitsVal_append_singleton, hval]
        unfold digitVal
        rw [digitChar_toNat hmod]
        omega
      · intro _
        obtain ⟨c, t, hct, hc0⟩ := hhead (by omega)
        exact ⟨c, t ++ [Char.ofNat (48 + n % 10)], by rw [hct]; rfl, hc0⟩

theorem natDigits_spec (n : Nat) :
    (∀ c ∈ natDigits n, isDigit c = true) ∧
    digitsVal (natDigits n) = n ∧
    natDigits n ≠ [] ∧
    (1 ≤ n → ∃ c t, natDigits n = c :: t ∧ c ≠ '0') :=
  natDigitsFuel_spec (n + 1) n (by omega)

theorem takeWhile_append_of_all {p : Char → Bool} :
    ∀ (l r : PyStr), (∀ c ∈ l, p c = true) →
      (l ++ r).takeWhile p = l ++ r.takeWhile p := by
  intro l r hall
  induction l with
  | nil => rfl
  | cons c t ih =>
    rw [List.cons_append, List.takeWhile_cons, if_pos (hall c (List.mem_cons_self _ _)),
      ih (fun x hm => hall x (List.mem_cons_of_mem _ hm))]
    rfl

theorem dropWhile_append_of_all {p : Char → Bool} :
    ∀ (l r : PyStr), (∀ c ∈ l, p c = true) →
      (l ++ r).dropWhile p = r.dropWhile p := by
  intro l r hall
  induction l with
  | nil => rfl
  | cons c t ih =>
    rw [List.cons_append, List.dropWhile_cons, if_pos (hall c (List.mem_cons_self _ _)),
      ih (fun x hm => hall x (List.mem_cons_of_mem _ hm))]

theorem restOk_head_facts : ∀ {rest : PyStr}, restOk rest →
    rest.takeWhile isDigit = [] ∧ rest.dropWhile isDigit = rest ∧
    (∀ c rest', rest = c :: rest' →
      (c = '.' || c = 'e' || c = 'E') = false ∧ jsonWs c = false ∧ isDigit c = false) := by
  intro rest h
  cases h with
  | inl he => subst he; exact ⟨rfl, rfl, by intro c rest' h; exact absurd h (by simp)⟩
  | inr hex =>
    obtain ⟨c, rest', he, hc⟩ := hex
    subst he
    have hfacts : (c = '.' || c = 'e' || c = 'E') = false ∧ jsonWs c = false ∧
        isDigit c = false := by
      rcases hc with rfl | rfl | rfl <;> decide
    refine ⟨?_, ?_, ?_⟩
    · rw [List.takeWhile_cons, if_neg (by simp [hfacts.2.2])]
    · rw [List.dropWhile_cons, if_neg (by simp [hfacts.2.2])]
    · intro c' rest'' he
      injection he with h1 h2
      subst h1
      exact hfacts

theorem parseUNum_natDigits (m : Nat) (rest : PyStr) (hrest : restOk rest) :
    parseUNum (natDigits m ++ rest) = some (m, rest) := by
  obtain ⟨hdig, hval, hne, hhead⟩ := natDigits_spec m
  obtain ⟨htw, hdw, hheadfacts⟩ := restOk_head_facts hrest
  unfold parseUNum
  rw [takeWhile_append_of_all _ _ hdig, dropWhile_append_of_all _ _ hdig, htw, hdw,
    List.append_nil]
  rw [if_neg (by simp [hne])]
  have hlead : (decide (List.head? (natDigits m) = some '0') &&
      decide (1 < (natDigits m).length)) = false := by
    by_cases hm : 1 ≤ m
    · obtain ⟨c, t, hct, hc0⟩ := hhead hm
      rw [hct]
      simp [hc0]
    · have hm0 : m = 0 := by omega
      subst hm0
      decide
  rw [if_neg (by simp only [hlead]; simp)]
  cases hr : rest with
  | nil => rw [hval]
  | cons c rest' =>
    split
    · rename_i c2 tail2 heq
      injection heq with h1 h2
      subst h1
      rw [if_neg (by simp [(hheadfacts c rest' hr).1]), hval]
    · rename_i heq
      exact absurd heq (by simp)

theorem parseNumberCore_intStr (i : Int) (rest : PyStr) (hrest : restOk rest) :
    parseNumberCore (intStr i ++ rest) = some (.num i, rest) := by
  by_cases hneg : i < 0
  · have hstr : intStr i = '-' :: natDigits i.natAbs := by
      unfold intStr
      rw [if_pos hneg]
    rw [hstr, List.cons_append]
    simp only [parseNumberCore, if_true]
    rw [parseUNum_natDigits _ _ hrest]
    simp only [Option.map_some']
    have hi : (-(i.natAbs : Int)) = i := by omega
    rw [hi]
  · have hstr : intStr i = natDigits i.natAbs := by
      unfold intStr
      rw [if_neg hneg]
    obtain ⟨hdig, _, hne, _⟩ := natDigits_spec i.natAbs
    obtain ⟨c, t, hct⟩ : ∃ c t, natDigits i.natAbs = c :: t := by
      cases h : natDigits i.natAbs with
      | nil => exact absurd h hne
      | cons c t => exact ⟨c, t, rfl⟩
    have hcd : isDigit c = true := hdig c (by rw [hct]; exact List.mem_cons_self _ _)
    have hcne : c ≠ '-' := by
      apply charNeOfToNatNe
      rw [isDigit_iff_toNat] at hcd
      have : ('-' : Char).toNat = 45 := by decide
      omega
    rw [hstr, hct, List.cons_append]
    simp only [parseNumberCore]
    rw [if_neg hcne, ← List.cons_append, ← hct, parseUNum_natDigits _ _ hrest]
    simp only [Option.map_some']
    have hi : ((i.natAbs : Nat) : Int) = i := by omega
    rw [hi]

/-! ## C2 groundwork: string escapes -/

theorem hexVal_hexDigitChar {k : Nat} (h : k < 16) :
    hexVal (hexDigitChar k) = some k := by
  unfold hexVal hexDigitChar
  by_cases h10 : k < 10
  · rw [if_pos h10, charToNatOfNat (validChar_of_lt (by omega))]
    rw [if_pos (by simp; omega)]
    congr 1
    omega
  · rw [if_neg h10, charToNatOfNat (validChar_of_lt (by omega))]
    rw [if_neg (by simp; omega), if_pos (by simp; omega)]
    congr 1
    omega

theorem escStr_cons (c : Char) (s : PyStr) : escStr (c :: s) = escChar c ++ escStr s := rfl

theorem mkChar?_toNat (c : Char) : mkChar? c.toNat = some c := by
  unfold mkChar?
  rw [dif_pos (charValidToNat c)]
  rw [charOfNatToNat]

theorem char_not_surrogate (c : Char) :
    ¬ (0xd800 ≤ c.toNat ∧ c.toNat ≤ 0xdbff) := by
  have h := charValidToNat c
  unfold Nat.isValidChar at h
  omega

theorem parseStrBody_quote (r : PyStr) : parseStrBody ('"' :: r) = some ([], r) := rfl

theorem parseStrBody_backslash (r : PyStr) : parseStrBody ('\\' :: r) = parseEsc r := rfl

theorem parseStrBody_plain {c : Char} (h1 : c ≠ '"') (h2 : c ≠ '\\')
    (h3 : ¬ c.toNat < 0x20) (r : PyStr) :
    parseStrBody (c :: r) = consStrResult c (parseStrBody r) := by
  simp only [parseStrBody]
  rw [if_neg h1, if_neg h2, if_neg (by simpa using h3)]

theorem parseEsc_quote (r : PyStr) :
    parseEsc ('"' :: r) = consStrResult '"' (parseStrBody r) := rfl

theorem parseEsc_backslash (r : PyStr) :
    parseEsc ('\\' :: r) = consStrResult '\\' (parseStrBody r) := rfl

theorem parseEsc_b (r : PyStr) :
    parseEsc ('b' :: r) = consStrResult '\x08' (parseStrBody r) := rfl

theorem parseEsc_f (r : PyStr) :
    parseEsc ('f' :: r) = consStrResult '\x0c' (parseStrBody r) := rfl

theorem parseEsc_n (r : PyStr) :
    parseEsc ('n' :: r) = consStrResult '\n' (parseStrBody r) := rfl

theorem parseEsc_r (r : PyStr) :
    parseEsc ('r' :: r) = consStrResult '\r' (parseStrBody r) := rfl

theorem parseEsc_t (r : PyStr) :
    parseEsc ('t' :: r) = consStrResult '\t' (parseStrBody r) := rfl

theorem parseEsc_u (r : PyStr) : parseEsc ('u' :: r) = parseU 0 4 r := rfl

theorem parseU_digit {c : Char} {d : Nat} (acc k2 : Nat) (rest : PyStr)
    (hc : hexVal c = some d) :
    parseU acc (k2 + 2) (c :: rest) = parseU (acc * 16 + d) (k2 + 1) rest := by
  rw [show parseU acc (k2 + 2) (c :: rest)
    = (match hexVal c with
       | some d2 => parseU (acc * 16 + d2) (k2 + 1) rest
       | none => none) from rfl, hc]

theorem parseU_last {c : Char} {d : Nat} (acc : Nat) (rest : PyStr)
    (hc : hexVal c = some d) :
    parseU acc 1 (c :: rest)
      = if 0xd800 ≤ acc * 16 + d ∧ acc * 16 + d ≤ 0xdbff then
          parseUBs (acc * 16 + d) rest
        else
          match mkChar? (acc * 16 + d) with
          | some ch => consStrResult ch (parseStrBody rest)
          | none => none := by
  rw [show parseU acc 1 (c :: rest)
    = (match hexVal c with
       | some d2 =>
         if 0xd800 ≤ acc * 16 + d2 ∧ acc * 16 + d2 ≤ 0xdbff then
           parseUBs (acc * 16 + d2) rest
         else
           match mkChar? (acc * 16 + d2) with
           | some ch => consStrResult ch (parseStrBody rest)
           | none => none
       | none => none) from rfl, hc]

theorem parseUBs_cons (n : Nat) (rest : PyStr) :
    parseUBs n ('\\' :: rest) = parseUU n rest := rfl

theorem parseUU_cons (n : Nat) (rest : PyStr) :
    parseUU n ('u' :: rest) = parseULow n 0 4 rest := rfl

theorem parseULow_digit {c : Char} {d : Nat} (n acc k2 : Nat) (rest : PyStr)
    (hc : hexVal c = some d) :
    parseULow n acc (k2 + 2) (c :: rest) = parseULow n (acc * 16 + d) (k2 + 1) rest := by
  rw [show parseULow n acc (k2 + 2) (c :: rest)
    = (match hexVal c with
       | some d2 => parseULow n (acc * 16 + d2) (k2 + 1) rest
       | none => none) from rfl, hc]

theorem parseULow_last {c : Char} {d : Nat} (n acc : Nat) (rest : PyStr)
    (hc : hexVal c = some d) :
    parseULow n acc 1 (c :: rest)
      = match surChar n (acc * 16 + d) with
        | some ch => consStrResult ch (parseStrBody rest)
        | none => none := by
  rw [show parseULow n acc 1 (c :: rest)
    = (match hexVal c with
       | some d2 =>
         match surChar n (acc * 16 + d2) with
         | some ch => consStrResult ch (parseStrBody rest)
         | none => none
       | none => none) from rfl, hc]

theorem parseU_run {a b c d : Char} {x y z w : Nat} (r3 : PyStr)
    (ha : hexVal a = some x) (hb : hexVal b = some y)
    (hc : hexVal c = some z) (hd : hexVal d = some w) :
    parseU 0 4 (a :: b :: c :: d :: r3)
      = if 0xd800 ≤ ((x * 16 + y) * 16 + z) * 16 + w ∧
            ((x * 16 + y) * 16 + z) * 16 + w ≤ 0xdbff then
          parseUBs (((x * 16 + y) * 16 + z) * 16 + w) r3
        else
          match mkChar? (((x * 16 + y) * 16 + z) * 16 + w) with
          | some ch => consStrResult ch (parseStrBody r3)
          | none => none := by
  rw [show (4 : Nat) = 2 + 2 from rfl, parseU_digit 0 2 _ ha]
  rw [show (2 : Nat) + 1 = 1 + 2 from rfl, parseU_digit _ 1 _ hb]
  rw [show (1 : Nat) + 1 = 0 + 2 from rfl, parseU_digit _ 0 _ hc]
  rw [show (0 : Nat) + 1 = 1 from rfl, parseU_last _ _ hd]
  rw [show (0 : Nat) * 16 + x = x from by omega]

theorem parseULow_run {a b c d : Char} {x y z w : Nat} (n : Nat) (r3 : PyStr)
    (ha : hexVal a = some x) (hb : hexVal b = some y)
    (hc : hexVal c = some z) (hd : hexVal d = some w) :
    parseULow n 0 4 (a :: b :: c :: d :: r3)
      = if 0xdc00 ≤ ((x * 16 + y) * 16 + z) * 16 + w ∧
            ((x * 16 + y) * 16 + z) * 16 + w ≤ 0xdfff then
          match mkChar? (0x10000 + (n - 0xd800) * 0x400 +
              (((x * 16 + y) * 16 + z) * 16 + w - 0xdc00)) with
          | some ch => consStrResult ch (parseStrBody r3)
          | none => none
        else none := by
  rw [show (4 : Nat) = 2 + 2 from rfl, parseULow_digit n 0 2 _ ha]
  rw [show (2 : Nat) + 1 = 1 + 2 from rfl, parseULow_digit n _ 1 _ hb]
  rw [show (1 : Nat) + 1 = 0 + 2 from rfl, parseULow_digit n _ 0 _ hc]
  rw [show (0 : Nat) + 1 = 1 from rfl, parseULow_last n _ _ hd]
  rw [show (0 : Nat) * 16 + x = x from by omega]
  by_cases hP : 0xdc00 ≤ ((x * 16 + y) * 16 + z) * 16 + w ∧
      ((x * 16 + y) * 16 + z) * 16 + w ≤ 0xdfff
  · rw [if_pos hP,
      show surChar n (((x * 16 + y) * 16 + z) * 16 + w)
        = mkChar? (0x10000 + (n - 0xd800) * 0x400 +
            (((x * 16 + y) * 16 + z) * 16 + w - 0xdc00)) from by
        unfold surChar
        rw [if_pos hP]]
  · rw [if_neg hP,
      show surChar n (((x * 16 + y) * 16 + z) * 16 + w) = none from by
        unfold surChar
        rw [if_neg hP]]

theorem parseU_bmp {a b c d : Char} {x y z w : Nat} (r3 : PyStr)
    (ha : hexVal a = some x) (hb : hexVal b = some y)
    (hc : hexVal c = some z) (hd : hexVal d = some w)
    (hsur : ¬ (0xd800 ≤ ((x * 16 + y) * 16 + z) * 16 + w ∧
        ((x * 16 + y) * 16 + z) * 16 + w ≤ 0xdbff)) :
    parseU 0 4 (a :: b :: c :: d :: r3) =
      match mkChar? (((x * 16 + y) * 16 + z) * 16 + w) with
      | some ch => consStrResult ch (parseStrBody r3)
      | none => none := by
  rw [parseU_run r3 ha hb hc hd, if_neg hsur]

theorem parseU_surrogate {a b c d a2 b2 c2 d2 : Char} {x y z w x2 y2 z2 w2 : Nat}
    (r4 : PyStr)
    (ha : hexVal a = some x) (hb : hexVal b = some y)
    (hc : hexVal c = some z) (hd : hexVal d = some w)
    (ha2 : hexVal a2 = some x2) (hb2 : hexVal b2 = some y2)
    (hc2 : hexVal c2 = some z2) (hd2 : hexVal d2 = some w2)
    (hsur : 0xd800 ≤ ((x * 16 + y) * 16 + z) * 16 + w ∧
        ((x * 16 + y) * 16 + z) * 16 + w ≤ 0xdbff)
    (hlow : 0xdc00 ≤ ((x2 * 16 + y2) * 16 + z2) * 16 + w2 ∧
        ((x2 * 16 + y2) * 16 + z2) * 16 + w2 ≤ 0xdfff) :
    parseU 0 4 (a :: b :: c :: d :: '\\' :: 'u' :: a2 :: b2 :: c2 :: d2 :: r4) =
      match mkChar? (0x10000 + (((x * 16 + y) * 16 + z) * 16 + w - 0xd800) * 0x400 +
          (((x2 * 16 + y2) * 16 + z2) * 16 + w2 - 0xdc00)) with
      | some ch => consStrResult ch (parseStrBody r4)
      | none => none := by
  rw [parseU_run _ ha hb hc hd, if_pos hsur, parseUBs_cons, parseUU_cons,
    parseULow_run _ _ ha2 hb2 hc2 hd2, if_pos hlow]

theorem hex4_expand (m : Nat) : hex4 m = [hexDigitChar (m / 4096 % 16),
    hexDigitChar (m / 256 % 16), hexDigitChar (m / 16 % 16), hexDigitChar (m % 16)] := rfl

theorem parseStrBody_escStr : ∀ (s rest : PyStr),
    parseStrBody (escStr s ++ '"' :: rest) = some (s, rest) := by
  intro s
  induction s with
  | nil =>
    intro rest
    rw [show escStr [] = [] from rfl, List.nil_append, parseStrBody_quote]
  | cons c s' ih =>
    intro rest
    rw [escStr_cons, List.append_assoc]
    by_cases h1 : c = '"'
    · subst h1
      rw [show escChar '"' = ['\\', '"'] from rfl]
      rw [show (['\\', '"'] : PyStr) ++ (escStr s' ++ '"' :: rest)
        = '\\' :: '"' :: (escStr s' ++ '"' :: rest) from rfl]
      rw [parseStrBody_backslash, parseEsc_quote, ih]
      rfl
    · by_cases h2 : c = '\\'
      · subst h2
        rw [show escChar '\\' = ['\\', '\\'] from rfl]
        rw [show (['\\', '\\'] : PyStr) ++ (escStr s' ++ '"' :: rest)
          = '\\' :: '\\' :: (escStr s' ++ '"' :: rest) from rfl]
        rw [parseStrBody_backslash, parseEsc_backslash, ih]
        rfl
      · by_cases h3 : c = '\n'
        · subst h3
          rw [show escChar '\n' = ['\\', 'n'] from rfl]
          rw [show (['\\', 'n'] : PyStr) ++ (escStr s' ++ '"' :: rest)
            = '\\' :: 'n' :: (escStr s' ++ '"' :: rest) from rfl]
          rw [parseStrBody_backslash, parseEsc_n, ih]
          rfl
        · by_cases h4 : c = '\r'
          · subst h4
            rw [show escChar '\r' = ['\\', 'r'] from rfl]
            rw [show (['\\', 'r'] : PyStr) ++ (escStr s' ++ '"' :: rest)
              = '\\' :: 'r' :: (escStr s' ++ '"' :: rest) from rfl]
            rw [parseStrBody_backslash, parseEsc_r, ih]
            rfl
          · by_cases h5 : c = '\t'
            · subst h5
              rw [show escChar '\t' = ['\\', 't'] from rfl]
              rw [show (['\\', 't'] : PyStr) ++ (escStr s' ++ '"' :: rest)
                = '\\' :: 't' :: (escStr s' ++ '"' :: rest) from rfl]
              rw [parseStrBody_backslash, parseEsc_t, ih]
              rfl
            · by_cases h6 : c = '\x08'
              · subst h6
                rw [show escChar '\x08' = ['\\', 'b'] from rfl]
                rw [show (['\\', 'b'] : PyStr) ++ (escStr s' ++ '"' :: rest)
                  = '\\' :: 'b' :: (escStr s' ++ '"' :: rest) from rfl]
                rw [parseStrBody_backslash, parseEsc_b, ih]
                rfl
              · by_cases h7 : c = '\x0c'
                · subst h7
                  rw [show escChar '\x0c' = ['\\', 'f'] from rfl]
                  rw [show (['\\', 'f'] : PyStr) ++ (escStr s' ++ '"' :: rest)
                    = '\\' :: 'f' :: (escStr s' ++ '"' :: rest) from rfl]
                  rw [parseStrBody_backslash, parseEsc_f, ih]
                  rfl
                · by_cases h8 : (c.toNat < 0x20 || 0x7f ≤ c.toNat) = true
                  · by_cases h9 : c.toNat < 0x10000
                    · have hesc : escChar c = '\\' :: 'u' :: hex4 c.toNat := by
                        unfold escChar
                        rw [if_neg h1, if_neg h2, if_neg h3, if_neg h4, if_neg h5,
                          if_neg h6, if_neg h7, if_pos h8, if_pos h9]
                      have ha : c.toNat / 4096 % 16 < 16 := Nat.mod_lt _ (by omega)
                      have hb : c.toNat / 256 % 16 < 16 := Nat.mod_lt _ (by omega)
                      have hc3 : c.toNat / 16 % 16 < 16 := Nat.mod_lt _ (by omega)
                      have hd : c.toNat % 16 < 16 := Nat.mod_lt _ (by omega)
                      have hn : ((c.toNat / 4096 % 16 * 16 + c.toNat / 256 % 16) * 16 +
                          c.toNat / 16 % 16) * 16 + c.toNat % 16 = c.toNat := by
                        omega
                      rw [hesc, hex4_expand]
                      rw [show ('\\' :: 'u' :: [hexDigitChar (c.toNat / 4096 % 16),
                        hexDigitChar (c.toNat / 256 % 16), hexDigitChar (c.toNat / 16 % 16),
                        hexDigitChar (c.toNat % 16)] : PyStr) ++ (escStr s' ++ '"' :: rest)
                        = '\\' :: 'u' :: hexDigitChar (c.toNat / 4096 % 16) ::
                          hexDigitChar (c.toNat / 256 % 16) :: hexDigitChar (c.toNat / 16 % 16) ::
                          hexDigitChar (c.toNat % 16) :: (escStr s' ++ '"' :: rest) from rfl]
                      rw [parseStrBody_backslash, parseEsc_u,
                        parseU_bmp _ (hexVal_hexDigitChar ha) (hexVal_hexDigitChar hb)
                          (hexVal_hexDigitChar hc3) (hexVal_hexDigitChar hd)
                          (by rw [hn]; exact char_not_surrogate c)]
                      rw [hn, mkChar?_toNat]
                      rw [ih]
                      rfl
                    · have hesc : escChar c =
                          '\\' :: 'u' :: hex4 (0xd800 + (c.toNat - 0x10000) / 0x400) ++
                          '\\' :: 'u' :: hex4 (0xdc00 + (c.toNat - 0x10000) % 0x400) := by
                        unfold escChar
                        rw [if_neg h1, if_neg h2, if_neg h3, if_neg h4, if_neg h5,
                          if_neg h6, if_neg h7, if_pos h8, if_neg h9]
                      have hlt : c.toNat < 0x110000 := by
                        have h := charValidToNat c
                        unfold Nat.isValidChar at h
                        omega
                      have hmod : (c.toNat - 0x10000) % 0x400 < 0x400 :=
                        Nat.mod_lt _ (by omega)
                      have hdivlt : (c.toNat - 0x10000) / 0x400 < 0x400 := by omega
                      set n1 := 0xd800 + (c.toNat - 0x10000) / 0x400 with hn1def
                      set n2 := 0xdc00 + (c.toNat - 0x10000) % 0x400 with hn2def
                      have ha : n1 / 4096 % 16 < 16 := Nat.mod_lt _ (by omega)
                      have hb : n1 / 256 % 16 < 16 := Nat.mod_lt _ (by omega)
                      have hc3 : n1 / 16 % 16 < 16 := Nat.mod_lt _ (by omega)
                      have hd : n1 % 16 < 16 := Nat.mod_lt _ (by omega)
                      have ha2 : n2 / 4096 % 16 < 16 := Nat.mod_lt _ (by omega)
                      have hb2 : n2 / 256 % 16 < 16 := Nat.mod_lt _ (by omega)
                      have hc4 : n2 / 16 % 16 < 16 := Nat.mod_lt _ (by omega)
                      have hd2 : n2 % 16 < 16 := Nat.mod_lt _ (by omega)
                      have hn1v : ((n1 / 4096 % 16 * 16 + n1 / 256 % 16) * 16 +
                          n1 / 16 % 16) * 16 + n1 % 16 = n1 := by omega
                      have hn2v : ((n2 / 4096 % 16 * 16 + n2 / 256 % 16) * 16 +
                          n2 / 16 % 16) * 16 + n2 % 16 = n2 := by omega
                      rw [hesc, hex4_expand, hex4_expand]
                      rw [show (('\\' :: 'u' :: [hexDigitChar (n1 / 4096 % 16),
                          hexDigitChar (n1 / 256 % 16), hexDigitChar (n1 / 16 % 16),
                          hexDigitChar (n1 % 16)] ++
                          '\\' :: 'u' :: [hexDigitChar (n2 / 4096 % 16),
                          hexDigitChar (n2 / 256 % 16), hexDigitChar (n2 / 16 % 16),
                          hexDigitChar (n2 % 16)] : PyStr)) ++ (escStr s' ++ '"' :: rest)
                        = '\\' :: 'u' :: hexDigitChar (n1 / 4096 % 16) ::
                          hexDigitChar (n1 / 256 % 16) :: hexDigitChar (n1 / 16 % 16) ::
                          hexDigitChar (n1 % 16) :: '\\' :: 'u' ::
                          hexDigitChar (n2 / 4096 % 16) :: hexDigitChar (n2 / 256 % 16) ::
                          hexDigitChar (n2 / 16 % 16) :: hexDigitChar (n2 % 16) ::
                          (escStr s' ++ '"' :: rest) from rfl]
                      rw [parseStrBody_backslash, parseEsc_u,
                        parseU_surrogate _ (hexVal_hexDigitChar ha) (hexVal_hexDigitChar hb)
                          (hexVal_hexDigitChar hc3) (hexVal_hexDigitChar hd)
                          (hexVal_hexDigitChar ha2) (hexVal_hexDigitChar hb2)
                          (hexVal_hexDigitChar hc4) (hexVal_hexDigitChar hd2)
                          (by rw [hn1v]; constructor <;> omega)
                          (by rw [hn2v]; constructor <;> omega)]
                      rw [hn1v, hn2v]
                      have hcomb : 0x10000 + (n1 - 0xd800) * 0x400 + (n2 - 0xdc00)
                          = c.toNat := by
                        rw [hn1def, hn2def]
                        omega
                      rw [hcomb, mkChar?_toNat]
                      rw [ih]
                      rfl
                  · have hesc : escChar c = [c] := by
                      unfold escChar
                      rw [if_neg h1, if_neg h2, if_neg h3, if_neg h4, if_neg h5,
                        if_neg h6, if_neg h7, if_neg h8]
                    rw [hesc, show ([c] : PyStr) ++ (escStr s' ++ '"' :: rest)
                      = c :: (escStr s' ++ '"' :: rest) from rfl]
                    have h20 : ¬ c.toNat < 0x20 := by
                      simp only [Bool.or_eq_true, decide_eq_true_eq] at h8
                      omega
                    rw [parseStrBody_plain h1 h2 h20, ih]
                    rfl


/-! ## C2 groundwork: serialized values parse back -/

theorem skipWs_append_ws (ws t : PyStr) (h : ∀ c ∈ ws, jsonWs c = true) :
    skipWs (ws ++ t) = skipWs t :=
  dropWhile_append_of_all ws t h

theorem skipWs_nonws {c : Char} (h : jsonWs c = false) (t : PyStr) :
    skipWs (c :: t) = c :: t := by
  unfold skipWs
  rw [List.dropWhile_cons, if_neg (by simp [h])]

theorem digit_or_dash_facts {c : Char} (h : c = '-' ∨ isDigit c = true) :
    c ≠ '\x7b' ∧ c ≠ '[' ∧ c ≠ '"' ∧ c ≠ 't' ∧ c ≠ 'f' ∧ c ≠ 'n' ∧
    jsonWs c = false ∧ (c = '-' || isDigit c) = true := by
  cases h with
  | inl he => subst he; decide
  | inr hd =>
    rw [isDigit_iff_toNat] at hd
    have t1 : ('\x7b' : Char).toNat = 123 := by decide
    have t2 : ('[' : Char).toNat = 91 := by decide
    have t3 : ('"' : Char).toNat = 34 := by decide
    have t4 : ('t' : Char).toNat = 116 := by decide
    have t5 : ('f' : Char).toNat = 102 := by decide
    have t6 : ('n' : Char).toNat = 110 := by decide
    have t7 : (' ' : Char).toNat = 32 := by decide
    have t8 : ('\t' : Char).toNat = 9 := by decide
    have t9 : ('\n' : Char).toNat = 10 := by decide
    have t10 : ('\r' : Char).toNat = 13 := by decide
    refine ⟨charNeOfToNatNe (by omega), charNeOfToNatNe (by omega),
      charNeOfToNatNe (by omega), charNeOfToNatNe (by omega),
      charNeOfToNatNe (by omega), charNeOfToNatNe (by omega), ?_, ?_⟩
    · unfold jsonWs
      simp only [Bool.or_eq_false_iff, decide_eq_false_iff_not]
      refine ⟨⟨⟨charNeOfToNatNe (by omega), charNeOfToNatNe (by omega)⟩,
        charNeOfToNatNe (by omega)⟩, charNeOfToNatNe (by omega)⟩
    · simp only [Bool.or_eq_true, decide_eq_true_eq]
      right
      rw [isDigit_iff_toNat]
      exact hd

theorem digit_sep_facts {c : Char} (h : isDigit c = true) :
    jsonWs c = false ∧ c ≠ ']' ∧ c ≠ '\x7d' ∧ c ≠ ',' := by
  rw [isDigit_iff_toNat] at h
  have t1 : (']' : Char).toNat = 93 := by decide
  have t2 : ('\x7d' : Char).toNat = 125 := by decide
  have t3 : (',' : Char).toNat = 44 := by decide
  have t7 : (' ' : Char).toNat = 32 := by decide
  have t8 : ('\t' : Char).toNat = 9 := by decide
  have t9 : ('\n' : Char).toNat = 10 := by decide
  have t10 : ('\r' : Char).toNat = 13 := by decide
  refine ⟨?_, charNeOfToNatNe (by omega), charNeOfToNatNe (by omega),
    charNeOfToNatNe (by omega)⟩
  unfold jsonWs
  simp only [Bool.or_eq_false_iff, decide_eq_false_iff_not]
  refine ⟨⟨⟨charNeOfToNatNe (by omega), charNeOfToNatNe (by omega)⟩,
    charNeOfToNatNe (by omega)⟩, charNeOfToNatNe (by omega)⟩

theorem intStr_head (i : Int) :
    ∃ c t, intStr i = c :: t ∧ (c = '-' ∨ isDigit c = true) := by
  by_cases hneg : i < 0
  · exact ⟨'-', natDigits i.natAbs, by unfold intStr; rw [if_pos hneg], Or.inl rfl⟩
  · obtain ⟨hdig, _, hne, _⟩ := natDigits_spec i.natAbs
    cases hds : natDigits i.natAbs with
    | nil => exact absurd hds hne
    | cons c t =>
      refine ⟨c, t, by unfold intStr; rw [if_neg hneg, hds], Or.inr ?_⟩
      exact hdig c (by rw [hds]; exact List.mem_cons_self _ _)

theorem dumpsV_head_props (v : Json) :
    ∃ c t, dumpsV v = c :: t ∧ jsonWs c = false ∧ c ≠ ']' ∧ c ≠ '\x7d' ∧ c ≠ ',' := by
  cases v with
  | null => exact ⟨'n', _, rfl, by decide, by decide, by decide, by decide⟩
  | bool b => cases b with
    | true => exact ⟨'t', _, rfl, by decide, by decide, by decide, by decide⟩
    | false => exact ⟨'f', _, rfl, by decide, by decide, by decide, by decide⟩
  | num n =>
    obtain ⟨c, t, hct, hc⟩ := intStr_head n
    refine ⟨c, t, by rw [show dumpsV (.num n) = intStr n from rfl, hct], ?_⟩
    cases hc with
    | inl he => subst he; exact ⟨by decide, by decide, by decide, by decide⟩
    | inr hd =>
      obtain ⟨hws, hrb, hcb, hcm⟩ := digit_sep_facts hd
      exact ⟨hws, hrb, hcb, hcm⟩
  | str s =>
    exact ⟨'"', escStr s ++ ['"'], rfl, by decide, by decide, by decide, by decide⟩
  | arr xs =>
    exact ⟨'[', dumpsItems xs ++ [']'], rfl, by decide, by decide, by decide, by decide⟩
  | obj fs =>
    exact ⟨'\x7b', dumpsFields fs ++ ['\x7d'], rfl, by decide, by decide, by decide,
      by decide⟩

theorem dumpsItemsTail_cons (x : Json) (xs : List Json) :
    dumpsItemsTail (x :: xs) = ',' :: ' ' :: dumpsItems (x :: xs) := rfl

theorem dumpsFieldsTail_cons (f : PyStr × Json) (fs : List (PyStr × Json)) :
    dumpsFieldsTail (f :: fs) = ',' :: ' ' :: dumpsFields (f :: fs) := by
  obtain ⟨k, v⟩ := f
  rfl

theorem restOk_nil : restOk [] := Or.inl rfl

theorem restOk_comma (r : PyStr) : restOk (',' :: r) :=
  Or.inr ⟨',', r, rfl, Or.inl rfl⟩

theorem restOk_rb (r : PyStr) : restOk (']' :: r) :=
  Or.inr ⟨']', r, rfl, Or.inr (Or.inl rfl)⟩

theorem restOk_cb (r : PyStr) : restOk ('\x7d' :: r) :=
  Or.inr ⟨'\x7d', r, rfl, Or.inr (Or.inr rfl)⟩

theorem hasKey_iff_mem (k : PyStr) :
    ∀ fs : List (PyStr × Json), hasKey k fs = true ↔ k ∈ fs.map Prod.fst := by
  intro fs
  induction fs with
  | nil => simp [hasKey]
  | cons f fs ih =>
    obtain ⟨k2, v⟩ := f
    unfold hasKey at ih ⊢
    simp only [List.any_cons, Bool.or_eq_true, List.map_cons, List.mem_cons, ih,
      decide_eq_true_eq]
    constructor
    · rintro (he | hm)
      · exact Or.inl he.symm
      · exact Or.inr hm
    · rintro (he | hm)
      · exact Or.inl he.symm
      · exact Or.inr hm

theorem dictInsert_append {k : PyStr} {v : Json} :
    ∀ {acc : List (PyStr × Json)}, hasKey k acc = false →
      dictInsert k v acc = acc ++ [(k, v)] := by
  intro acc
  induction acc with
  | nil => intro _; rfl
  | cons f fs ih =>
    obtain ⟨k2, v2⟩ := f
    intro h
    unfold hasKey at h
    simp only [List.any_cons, Bool.or_eq_false_iff, decide_eq_false_iff_not] at h
    unfold dictInsert
    rw [if_neg h.1]
    have h2 : hasKey k fs = false := by
      unfold hasKey
      exact h.2
    rw [ih h2]
    rfl

theorem hasKey_append (k : PyStr) (l1 l2 : List (PyStr × Json)) :
    hasKey k (l1 ++ l2) = (hasKey k l1 || hasKey k l2) := by
  unfold hasKey
  rw [List.any_append]

mutual

theorem parseValue_dumps : ∀ (v : Json), Json.WF v →
    ∀ (fuel : Nat) (ws rest : PyStr), (∀ c ∈ ws, jsonWs c = true) → restOk rest →
      jsonNeed v < fuel →
      parseValue fuel (ws ++ (dumpsV v ++ rest)) = some (v, rest)
  | .null => by
    intro _ fuel ws rest hws _ hfuel
    cases fuel with
    | zero => exact absurd hfuel (Nat.not_lt_zero _)
    | succ fuel =>
      have hskip : skipWs (ws ++ (dumpsV .null ++ rest)) = 'n' :: (str "ull" ++ rest) := by
        rw [skipWs_append_ws _ _ hws,
          show dumpsV .null ++ rest = 'n' :: (str "ull" ++ rest) from rfl,
          skipWs_nonws (by decide)]
      simp only [parseValue, hskip]
      rw [if_pos trivial]
      rfl
  | .bool true => by
    intro _ fuel ws rest hws _ hfuel
    cases fuel with
    | zero => exact absurd hfuel (Nat.not_lt_zero _)
    | succ fuel =>
      have hskip : skipWs (ws ++ (dumpsV (.bool true) ++ rest))
          = 't' :: (str "rue" ++ rest) := by
        rw [skipWs_append_ws _ _ hws,
          show dumpsV (.bool true) ++ rest = 't' :: (str "rue" ++ rest) from rfl,
          skipWs_nonws (by decide)]
      simp only [parseValue, hskip]
      rw [if_pos trivial]
      rfl
  | .bool false => by
    intro _ fuel ws rest hws _ hfuel
    cases fuel with
    | zero => exact absurd hfuel (Nat.not_lt_zero _)
    | succ fuel =>
      have hskip : skipWs (ws ++ (dumpsV (.bool false) ++ rest))
          = 'f' :: (str "alse" ++ rest) := by
        rw [skipWs_append_ws _ _ hws,
          show dumpsV (.bool false) ++ rest = 'f' :: (str "alse" ++ rest) from rfl,
          skipWs_nonws (by decide)]
      simp only [parseValue, hskip]
      rw [if_pos trivial]
      rfl
  | .num n => by
    intro _ fuel ws rest hws hrest hfuel
    cases fuel with
    | zero => exact absurd hfuel (Nat.not_lt_zero _)
    | succ fuel =>
      obtain ⟨c, t, hct, hcd⟩ := intStr_head n
      obtain ⟨hne1, hne2, hne3, hne4, hne5, hne6, hnws, hcond⟩ := digit_or_dash_facts hcd
      have hskip : skipWs (ws ++ (dumpsV (.num n) ++ rest)) = c :: (t ++ rest) := by
        rw [skipWs_append_ws _ _ hws, show dumpsV (.num n) = intStr n from rfl, hct,
          List.cons_append, skipWs_nonws hnws]
      simp only [parseValue, hskip]
      rw [if_neg hne1, if_neg hne2, if_neg hne3, if_neg hne4, if_neg hne5, if_neg hne6,
        if_pos hcond, ← List.cons_append, ← hct, parseNumberCore_intStr n rest hrest]
  | .str s => by
    intro _ fuel ws rest hws _ hfuel
    cases fuel with
    | zero => exact absurd hfuel (Nat.not_lt_zero _)
    | succ fuel =>
      have hskip : skipWs (ws ++ (dumpsV (.str s) ++ rest))
          = '"' :: (escStr s ++ '"' :: rest) := by
        rw [skipWs_append_ws _ _ hws,
          show dumpsV (.str s) ++ rest = '"' :: (escStr s ++ '"' :: rest) from by
            simp [dumpsV],
          skipWs_nonws (by decide)]
      simp only [parseValue, hskip]
      rw [if_pos trivial, parseStrBody_escStr]
      rfl
  | .arr xs => by
    intro hwf fuel ws rest hws hrest hfuel
    cases fuel with
    | zero => exact absurd hfuel (Nat.not_lt_zero _)
    | succ fuel =>
      cases xs with
      | nil =>
        have hskip : skipWs (ws ++ (dumpsV (.arr []) ++ rest)) = '[' :: (']' :: rest) := by
          rw [skipWs_append_ws _ _ hws,
            show dumpsV (.arr []) ++ rest = '[' :: (']' :: rest) from rfl,
            skipWs_nonws (by decide)]
        simp only [parseValue, hskip]
        rw [if_neg (by decide), if_pos trivial, skipWs_nonws (by decide)]
        rfl
      | cons x xs' =>
        have hwfl : Json.WFList (x :: xs') := hwf
        obtain ⟨c0, t0, hx0, hx1, hx2, hx3⟩ := dumpsV_head_props x
        have hXeq : dumpsItems (x :: xs') ++ (']' :: rest)
            = c0 :: (t0 ++ (dumpsItemsTail xs' ++ (']' :: rest))) := by
          rw [show dumpsItems (x :: xs') = dumpsV x ++ dumpsItemsTail xs' from rfl, hx0]
          simp
        have hskip : skipWs (ws ++ (dumpsV (.arr (x :: xs')) ++ rest))
            = '[' :: (dumpsItems (x :: xs') ++ (']' :: rest)) := by
          rw [skipWs_append_ws _ _ hws,
            show dumpsV (.arr (x :: xs')) ++ rest
              = '[' :: (dumpsItems (x :: xs') ++ (']' :: rest)) from by
                simp [dumpsV],
            skipWs_nonws (by decide)]
        simp only [parseValue, hskip]
        rw [if_neg (by decide), if_pos trivial]
        have hskip2 : skipWs (dumpsItems (x :: xs') ++ (']' :: rest))
            = dumpsItems (x :: xs') ++ (']' :: rest) := by
          rw [hXeq, skipWs_nonws hx1, ← hXeq]
        split
        · rename_i r heq
          rw [hskip2, hXeq] at heq
          injection heq with hc _
          exact absurd hc hx2
        · rename_i hnotrb
          rw [hskip2]
          have harr := parseArrItems_dumps (x :: xs') (by simp) hwfl fuel []
            rest (by simp) (by
              simp only [jsonNeed] at hfuel
              omega)
          rw [List.nil_append] at harr
          rw [harr]
          rfl
  | .obj fs => by
    intro hwf fuel ws rest hws hrest hfuel
    cases fuel with
    | zero => exact absurd hfuel (Nat.not_lt_zero _)
    | succ fuel =>
      cases fs with
      | nil =>
        have hskip : skipWs (ws ++ (dumpsV (.obj []) ++ rest))
            = '\x7b' :: ('\x7d' :: rest) := by
          rw [skipWs_append_ws _ _ hws,
            show dumpsV (.obj []) ++ rest = '\x7b' :: ('\x7d' :: rest) from rfl,
            skipWs_nonws (by decide)]
        simp only [parseValue, hskip]
        rw [if_pos trivial, skipWs_nonws (by decide)]
        rfl
      | cons f fs' =>
        obtain ⟨hnodup, hwff⟩ := hwf
        have hXeq : dumpsFields (f :: fs') ++ ('\x7d' :: rest)
            = '"' :: ((escStr f.1 ++ '"' :: ':' :: ' ' ::
              (dumpsV f.2 ++ dumpsFieldsTail fs')) ++ ('\x7d' :: rest)) := by
          obtain ⟨k, v⟩ := f
          rfl
        have hskip : skipWs (ws ++ (dumpsV (.obj (f :: fs')) ++ rest))
            = '\x7b' :: (dumpsFields (f :: fs') ++ ('\x7d' :: rest)) := by
          rw [skipWs_append_ws _ _ hws,
            show dumpsV (.obj (f :: fs')) ++ rest
              = '\x7b' :: (dumpsFields (f :: fs') ++ ('\x7d' :: rest)) from by
                simp [dumpsV],
            skipWs_nonws (by decide)]
        simp only [parseValue, hskip]
        rw [if_pos trivial]
        have hskip2 : skipWs (dumpsFields (f :: fs') ++ ('\x7d' :: rest))
            = dumpsFields (f :: fs') ++ ('\x7d' :: rest) := by
          rw [hXeq, skipWs_nonws (by decide), ← hXeq]
        split
        · rename_i r heq
          rw [hskip2, hXeq] at heq
          injection heq with hc _
          exact absurd hc (by decide)
        · rename_i hnotcb
          rw [hskip2]
          have hobj := parseObjItems_dumps (f :: fs') (by simp) hwff hnodup fuel []
            [] rest (by simp) (by intro k _; rfl) (by
              simp only [jsonNeed] at hfuel
              omega)
          rw [List.nil_append] at hobj
          rw [hobj]
          rfl

theorem parseArrItems_dumps : ∀ (xs : List Json), xs ≠ [] → Json.WFList xs →
    ∀ (fuel : Nat) (ws rest : PyStr), (∀ c ∈ ws, jsonWs c = true) →
      jsonNeedList xs < fuel →
      parseArrItems fuel (ws ++ (dumpsItems xs ++ (']' :: rest))) = some (xs, rest)
  | [] => by
    intro hne
    exact absurd rfl hne
  | x :: xs' => by
    intro _ hwf fuel ws rest hws hfuel
    cases fuel with
    | zero => exact absurd hfuel (Nat.not_lt_zero _)
    | succ fuel =>
      obtain ⟨hwfx, hwfxs⟩ := hwf
      have hmaxl : jsonNeed x ≤ max (jsonNeed x) (jsonNeedList xs') := Nat.le_max_left _ _
      have hmaxr : jsonNeedList xs' ≤ max (jsonNeed x) (jsonNeedList xs') :=
        Nat.le_max_right _ _
      simp only [jsonNeedList] at hfuel
      simp only [parseArrItems]
      cases xs' with
      | nil =>
        have hin : ws ++ (dumpsItems [x] ++ (']' :: rest))
            = ws ++ (dumpsV x ++ (']' :: rest)) := by
          rw [show dumpsItems [x] = dumpsV x ++ dumpsItemsTail [] from rfl]
          simp [dumpsItemsTail]
        rw [hin, parseValue_dumps x hwfx fuel ws (']' :: rest) hws (restOk_rb rest)
          (by omega)]
        rfl
      | cons y ys =>
        have hin : ws ++ (dumpsItems (x :: y :: ys) ++ (']' :: rest))
            = ws ++ (dumpsV x ++ (',' :: (' ' :: (dumpsItems (y :: ys) ++ (']' :: rest))))) := by
          rw [show dumpsItems (x :: y :: ys) = dumpsV x ++ dumpsItemsTail (y :: ys) from rfl,
            dumpsItemsTail_cons]
          simp
        rw [hin, parseValue_dumps x hwfx fuel ws _ hws (restOk_comma _) (by omega)]
        have hrec := parseArrItems_dumps (y :: ys) (by simp) hwfxs fuel [' ']
          rest (by decide) (by omega)
        rw [show (([' '] : PyStr) ++ (dumpsItems (y :: ys) ++ (']' :: rest)))
          = ' ' :: (dumpsItems (y :: ys) ++ (']' :: rest)) from rfl] at hrec
        show Option.map (fun p => (x :: p.1, p.2))
          (parseArrItems fuel (' ' :: (dumpsItems (y :: ys) ++ (']' :: rest))))
          = some (x :: y :: ys, rest)
        rw [hrec]
        rfl

theorem parseObjItems_dumps : ∀ (fs : List (PyStr × Json)), fs ≠ [] → Json.WFFields fs →
    (fs.map Prod.fst).Nodup →
    ∀ (fuel : Nat) (acc : List (PyStr × Json)) (ws rest : PyStr),
      (∀ c ∈ ws, jsonWs c = true) →
      (∀ k ∈ fs.map Prod.fst, hasKey k acc = false) →
      jsonNeedFields fs < fuel →
      parseObjItems fuel acc (ws ++ (dumpsFields fs ++ ('\x7d' :: rest)))
        = some (acc ++ fs, rest)
  | [] => by
    intro hne
    exact absurd rfl hne
  | (k, v) :: fs' => by
    intro _ hwf hnodup fuel acc ws rest hws hdisj hfuel
    cases fuel with
    | zero => exact absurd hfuel (Nat.not_lt_zero _)
    | succ fuel =>
      obtain ⟨hwfv, hwffs⟩ := hwf
      have hmaxl : jsonNeed v ≤ max (jsonNeed v) (jsonNeedFields fs') := Nat.le_max_left _ _
      have hmaxr : jsonNeedFields fs' ≤ max (jsonNeed v) (jsonNeedFields fs') :=
        Nat.le_max_right _ _
      simp only [jsonNeedFields] at hfuel
      have hkey : hasKey k acc = false :=
        hdisj k (by exact List.mem_cons_self _ _)
      have hins : dictInsert k v acc = acc ++ [(k, v)] := dictInsert_append hkey
      have hin : ws ++ (dumpsFields ((k, v) :: fs') ++ ('\x7d' :: rest))
          = ws ++ ('"' :: (escStr k ++ ('"' :: (':' ::
              (' ' :: (dumpsV v ++ (dumpsFieldsTail fs' ++ ('\x7d' :: rest))))))))  := by
        rw [show dumpsFields ((k, v) :: fs')
          = '"' :: (escStr k ++ '"' :: ':' :: ' ' :: (dumpsV v ++ dumpsFieldsTail fs'))
          from rfl]
        simp
      simp only [parseObjItems]
      rw [hin, skipWs_append_ws _ _ hws, skipWs_nonws (by decide)]
      simp only []
      rw [parseStrBody_escStr]
      simp only []
      rw [skipWs_nonws (by decide)]
      simp only []
      rw [show (' ' :: (dumpsV v ++ (dumpsFieldsTail fs' ++ ('\x7d' :: rest))))
        = [' '] ++ (dumpsV v ++ (dumpsFieldsTail fs' ++ ('\x7d' :: rest))) from rfl]
      cases fs' with
      | nil =>
        rw [show dumpsFieldsTail ([] : List (PyStr × Json)) = [] from rfl,
          List.nil_append]
        rw [parseValue_dumps v hwfv fuel [' '] ('\x7d' :: rest) (by decide)
          (restOk_cb rest) (by omega)]
        simp only []
        rw [skipWs_nonws (by decide)]
        simp only []
        rw [hins]
      | cons f2 fs'' =>
        rw [dumpsFieldsTail_cons]
        rw [show ((',' :: ' ' :: dumpsFields (f2 :: fs'')) ++ ('\x7d' :: rest))
          = ',' :: (' ' :: (dumpsFields (f2 :: fs'') ++ ('\x7d' :: rest))) from by simp]
        rw [parseValue_dumps v hwfv fuel [' ']
          (',' :: (' ' :: (dumpsFields (f2 :: fs'') ++ ('\x7d' :: rest)))) (by decide)
          (restOk_comma _) (by omega)]
        simp only []
        rw [skipWs_nonws (by decide)]
        simp only []
        have hnodup' : ((f2 :: fs'').map Prod.fst).Nodup := by
          rw [List.map_cons] at hnodup
          exact hnodup.of_cons
        have hdisj' : ∀ k2 ∈ (f2 :: fs'').map Prod.fst,
            hasKey k2 (dictInsert k v acc) = false := by
          intro k2 hm
          rw [hins, hasKey_append]
          have h1 : hasKey k2 acc = false := hdisj k2 (List.mem_cons_of_mem _ hm)
          have h2 : hasKey k2 [(k, v)] = false := by
            unfold hasKey
            simp only [List.any_cons, List.any_nil, Bool.or_false, decide_eq_false_iff_not]
            intro hkk
            rw [List.map_cons] at hnodup
            rw [List.nodup_cons] at hnodup
            exact hnodup.1 (by
              show k ∈ List.map Prod.fst (f2 :: fs'')
              rw [hkk]
              exact hm)
          rw [h1, h2]
          rfl
        have hrec := parseObjItems_dumps (f2 :: fs'') (by simp) hwffs hnodup' fuel
          (dictInsert k v acc) [' '] rest (by decide) hdisj' (by omega)
        rw [show (([' '] : PyStr) ++ (dumpsFields (f2 :: fs'') ++ ('\x7d' :: rest)))
          = ' ' :: (dumpsFields (f2 :: fs'') ++ ('\x7d' :: rest)) from rfl] at hrec
        rw [hrec, hins]
        simp

end

mutual

theorem jsonNeed_le_len : ∀ v : Json, jsonNeed v ≤ (dumpsV v).length
  | .null => by simp [jsonNeed, dumpsV, str]
  | .bool true => by simp [jsonNeed, dumpsV, str]
  | .bool false => by simp [jsonNeed, dumpsV, str]
  | .num n => by
    obtain ⟨c, t, hct, _⟩ := intStr_head n
    rw [show dumpsV (.num n) = intStr n from rfl, hct]
    simp [jsonNeed]
  | .str s => by
    rw [show dumpsV (.str s) = '"' :: (escStr s ++ ['"']) from rfl]
    simp [jsonNeed]
  | .arr xs => by
    have h := jsonNeedList_le_len xs
    rw [show dumpsV (.arr xs) = '[' :: (dumpsItems xs ++ [']']) from rfl]
    simp only [jsonNeed, List.length_cons, List.length_append, List.length_singleton]
    omega
  | .obj fs => by
    have h := jsonNeedFields_le_len fs
    rw [show dumpsV (.obj fs) = '\x7b' :: (dumpsFields fs ++ ['\x7d']) from rfl]
    simp only [jsonNeed, List.length_cons, List.length_append, List.length_singleton]
    omega

theorem jsonNeedList_le_len : ∀ xs : List Json, jsonNeedList xs ≤ 1 + (dumpsItems xs).length
  | [] => by simp [jsonNeedList, dumpsItems]
  | x :: xs => by
    have hx := jsonNeed_le_len x
    have hxs := jsonNeedList_le_len xs
    rw [show dumpsItems (x :: xs) = dumpsV x ++ dumpsItemsTail xs from rfl]
    simp only [jsonNeedList, List.length_append]
    cases xs with
    | nil =>
      simp only [jsonNeedList] at hxs ⊢
      have : max (jsonNeed x) 0 = jsonNeed x := Nat.max_eq_left (Nat.zero_le _)
      omega
    | cons y ys =>
      rw [dumpsItemsTail_cons]
      have hmax : max (jsonNeed x) (jsonNeedList (y :: ys)) ≤
          max ((dumpsV x).length) (1 + (dumpsItems (y :: ys)).length) :=
        max_le_max hx hxs
      have h1 : max (jsonNeed x) (jsonNeedList (y :: ys)) ≤
          (dumpsV x).length + 1 + (dumpsItems (y :: ys)).length := by
        have := Nat.max_le.mp hmax
        omega
      simp only [List.length_cons]
      omega

theorem jsonNeedFields_le_len :
    ∀ fs : List (PyStr × Json), jsonNeedFields fs ≤ 1 + (dumpsFields fs).length
  | [] => by simp [jsonNeedFields, dumpsFields]
  | (k, v) :: fs => by
    have hv := jsonNeed_le_len v
    have hfs := jsonNeedFields_le_len fs
    rw [show dumpsFields ((k, v) :: fs)
      = '"' :: (escStr k ++ '"' :: ':' :: ' ' :: (dumpsV v ++ dumpsFieldsTail fs)) from rfl]
    simp only [jsonNeedFields, List.length_cons, List.length_append]
    cases fs with
    | nil =>
      simp only [jsonNeedFields] at hfs ⊢
      have : max (jsonNeed v) 0 = jsonNeed v := Nat.max_eq_left (Nat.zero_le _)
      omega
    | cons f2 fs2 =>
      rw [dumpsFieldsTail_cons]
      have hmax : max (jsonNeed v) (jsonNeedFields (f2 :: fs2)) ≤
          max ((dumpsV v).length) (1 + (dumpsFields (f2 :: fs2)).length) :=
        max_le_max hv hfs
      have h1 := Nat.max_le.mp hmax
      simp only [List.length_cons]
      omega

end

theorem loads_dumps (v : Json) (hwf : Json.WF v) : loads (dumpsV v) = some v := by
  unfold loads
  have h := parseValue_dumps v hwf ((dumpsV v).length + 1) [] [] (by simp) restOk_nil
    (by have := jsonNeed_le_len v; omega)
  rw [List.nil_append, List.append_nil] at h
  rw [h]
  rfl

/-! ## C2 groundwork: the extraction layer on serialized arrays -/

theorem fenceAt_backtick {s r : PyStr} (h : fenceAt s = some r) :
    ∃ t, s = '\x60' :: t := by
  unfold fenceAt at h
  split at h
  · rename_i after heq
    exact ⟨_, rfl⟩
  · exact absurd h (by simp)

theorem codeBlockExtract_mem : ∀ {s r : PyStr}, codeBlockExtract s = some r → '\x60' ∈ s := by
  intro s
  induction s with
  | nil => intro r h; exact absurd h (by simp [codeBlockExtract])
  | cons c cs ih =>
    intro r h
    simp only [codeBlockExtract] at h
    cases hf : fenceAt (c :: cs) with
    | some r2 =>
      obtain ⟨t, ht⟩ := fenceAt_backtick hf
      injection ht with h1 _
      rw [h1]
      exact List.mem_cons_self _ _
    | none =>
      rw [hf] at h
      exact List.mem_cons_of_mem _ (ih h)

theorem splitFirst_spec (c : Char) :
    ∀ (pre post : PyStr), c ∉ pre → splitFirst c (pre ++ c :: post) = some (pre, post) := by
  intro pre
  induction pre with
  | nil =>
    intro post _
    unfold splitFirst
    rw [List.nil_append]
    simp
  | cons x xs ih =>
    intro post hnm
    have hx : ¬ x = c := fun he => hnm (by rw [he]; exact List.mem_cons_self _ _)
    rw [List.cons_append]
    unfold splitFirst
    rw [if_neg hx, ih post (fun hm => hnm (List.mem_cons_of_mem _ hm))]
    rfl

theorem bareArrayMatch_self {body : PyStr} (h : ']' ∉ body) :
    bareArrayMatch ('[' :: (body ++ [']'])) = some ('[' :: (body ++ [']'])) := by
  simp only [bareArrayMatch]
  rw [if_pos trivial]
  rw [show body ++ [']'] = body ++ ']' :: [] from rfl, splitFirst_spec ']' body [] h]

theorem dropWhile_append_singleton_ne {p : Char → Bool} {c : Char} (h : p c = false) :
    ∀ l : PyStr, List.dropWhile p (l ++ [c]) ≠ [] := by
  intro l
  induction l with
  | nil =>
    rw [List.nil_append, List.dropWhile_cons, if_neg (by simp [h])]
    simp
  | cons x xs ih =>
    rw [List.cons_append, List.dropWhile_cons]
    split
    · exact ih
    · simp

theorem pyStrip_cons_ne_nil {c : Char} (h : pyIsSpace c = false) (t : PyStr) :
    pyStrip (c :: t) ≠ [] := by
  unfold pyStrip
  rw [List.dropWhile_cons, if_neg (by simp [h])]
  intro habs
  rw [List.reverse_eq_nil_iff] at habs
  have : (c :: t).reverse = t.reverse ++ [c] := by simp
  rw [this] at habs
  exact dropWhile_append_singleton_ne h t.reverse habs

theorem dumpsArr_dropLast (ops : List Json) :
    (dumpsV (.arr ops)).dropLast = '[' :: dumpsItems ops := by
  rw [show dumpsV (.arr ops) = '[' :: (dumpsItems ops ++ [']']) from rfl,
    show '[' :: (dumpsItems ops ++ [']']) = ('[' :: dumpsItems ops) ++ [']'] from by simp]
  exact List.dropLast_concat

theorem selectJsonStr_dumps (ops : List Json)
    (hcb : '\x60' ∉ dumpsV (.arr ops)) (hrb : rbOnlyFinal (dumpsV (.arr ops))) :
    selectJsonStr (dumpsV (.arr ops)) = dumpsV (.arr ops) := by
  unfold selectJsonStr
  have h1 : codeBlockExtract (dumpsV (.arr ops)) = none := by
    cases hcbe : codeBlockExtract (dumpsV (.arr ops)) with
    | none => rfl
    | some r => exact absurd (codeBlockExtract_mem hcbe) hcb
  rw [h1]
  have hnotin : ']' ∉ dumpsItems ops := by
    obtain ⟨_, hdrop⟩ := hrb
    intro hm
    exact hdrop (by rw [dumpsArr_dropLast]; exact List.mem_cons_of_mem _ hm)
  rw [show dumpsV (.arr ops) = '[' :: (dumpsItems ops ++ [']']) from rfl,
    bareArrayMatch_self hnotin]

/-! ## C2 groundwork: loads only produces well-formed values -/

theorem dictInsert_keys_mem {x k : PyStr} {v : Json} :
    ∀ {fs : List (PyStr × Json)}, x ∈ ((dictInsert k v fs).map Prod.fst) →
      x = k ∨ x ∈ fs.map Prod.fst := by
  intro fs
  induction fs with
  | nil =>
    intro h
    rw [show dictInsert k v [] = [(k, v)] from rfl] at h
    simp only [List.map_cons, List.map_nil, List.mem_cons, List.not_mem_nil, or_false] at h
    exact Or.inl h
  | cons f fs ih =>
    obtain ⟨k2, v2⟩ := f
    intro h
    simp only [dictInsert] at h
    by_cases he : k2 = k
    · rw [if_pos he] at h
      simp only [List.map_cons, List.mem_cons] at h
      cases h with
      | inl h1 => exact Or.inl h1
      | inr h2 => exact Or.inr (by simp only [List.map_cons, List.mem_cons]; exact Or.inr h2)
    · rw [if_neg he] at h
      simp only [List.map_cons, List.mem_cons] at h
      cases h with
      | inl h1 => exact Or.inr (by rw [List.map_cons, List.mem_cons]; exact Or.inl h1)
      | inr h2 =>
        cases ih h2 with
        | inl h3 => exact Or.inl h3
        | inr h4 => exact Or.inr (by simp only [List.map_cons, List.mem_cons]; exact Or.inr h4)

theorem dictInsert_nodup {k : PyStr} {v : Json} :
    ∀ {fs : List (PyStr × Json)}, (fs.map Prod.fst).Nodup →
      ((dictInsert k v fs).map Prod.fst).Nodup := by
  intro fs
  induction fs with
  | nil => intro _; simp [dictInsert]
  | cons f fs ih =>
    obtain ⟨k2, v2⟩ := f
    intro hnd
    simp only [List.map_cons, List.nodup_cons] at hnd
    obtain ⟨hk2, hnd2⟩ := hnd
    simp only [dictInsert]
    by_cases he : k2 = k
    · rw [if_pos he]
      simp only [List.map_cons, List.nodup_cons]
      exact ⟨he ▸ hk2, hnd2⟩
    · rw [if_neg he]
      simp only [List.map_cons, List.nodup_cons]
      refine ⟨fun hm => ?_, ih hnd2⟩
      cases dictInsert_keys_mem hm with
      | inl h1 => exact he h1
      | inr h2 => exact hk2 h2

theorem dictInsert_wff {k : PyStr} {v : Json} (hv : Json.WF v) :
    ∀ {fs : List (PyStr × Json)}, Json.WFFields fs → Json.WFFields (dictInsert k v fs) := by
  intro fs
  induction fs with
  | nil => intro _; exact ⟨hv, trivial⟩
  | cons f fs ih =>
    obtain ⟨k2, v2⟩ := f
    intro hwf
    obtain ⟨hv2, hfs⟩ := hwf
    simp only [dictInsert]
    by_cases he : k2 = k
    · rw [if_pos he]; exact ⟨hv, hfs⟩
    · rw [if_neg he]; exact ⟨hv2, ih hfs⟩

theorem parseNumberCore_num {s : PyStr} {v : Json} {r : PyStr}
    (h : parseNumberCore s = some (v, r)) : ∃ n : Int, v = .num n := by
  cases s with
  | nil => exact absurd h (by simp [parseNumberCore])
  | cons c rest =>
    simp only [parseNumberCore] at h
    by_cases hc : c = '-'
    · rw [if_pos hc] at h
      cases hp : parseUNum rest with
      | none => rw [hp] at h; exact absurd h (by simp)
      | some p =>
        rw [hp] at h
        simp only [Option.map_some'] at h
        injection h with h1
        injection h1 with h2 _
        exact ⟨_, h2.symm⟩
    · rw [if_neg hc] at h
      cases hp : parseUNum (c :: rest) with
      | none => rw [hp] at h; exact absurd h (by simp)
      | some p =>
        rw [hp] at h
        simp only [Option.map_some'] at h
        injection h with h1
        injection h1 with h2 _
        exact ⟨_, h2.symm⟩

mutual

theorem parseValue_wf : ∀ (fuel : Nat) (s : PyStr) (v : Json) (r : PyStr),
    parseValue fuel s = some (v, r) → Json.WF v
  | 0, _, _, _ => fun h => absurd h (by simp [parseValue])
  | Nat.succ fuel, s, v, r => fun h => by
    simp only [parseValue] at h
    split at h
    · exact absurd h (by simp)
    · rename_i c rest heq
      by_cases h1 : c = '\x7b'
      · rw [if_pos h1] at h
        split at h
        · injection h with hp
          injection hp with hv _
          rw [← hv]
          exact ⟨List.nodup_nil, trivial⟩
        · cases ho : parseObjItems fuel [] (skipWs rest) with
          | none => rw [ho] at h; exact absurd h (by simp)
          | some p =>
            obtain ⟨fs2, r2⟩ := p
            rw [ho] at h
            simp only [Option.map_some'] at h
            injection h with hp
            injection hp with hv _
            rw [← hv]
            exact parseObjItems_wf fuel [] (skipWs rest) fs2 r2 ho List.nodup_nil trivial
      · rw [if_neg h1] at h
        by_cases h2 : c = '['
        · rw [if_pos h2] at h
          split at h
          · injection h with hp
            injection hp with hv _
            rw [← hv]
            exact trivial
          · cases ha : parseArrItems fuel (skipWs rest) with
            | none => rw [ha] at h; exact absurd h (by simp)
            | some p =>
              obtain ⟨xs2, r2⟩ := p
              rw [ha] at h
              simp only [Option.map_some'] at h
              injection h with hp
              injection hp with hv _
              rw [← hv]
              exact parseArrItems_wf fuel (skipWs rest) xs2 r2 ha
        · rw [if_neg h2] at h
          by_cases h3 : c = '"'
          · rw [if_pos h3] at h
            cases hp : parseStrBody rest with
            | none => rw [hp] at h; exact absurd h (by simp)
            | some q =>
              obtain ⟨s3, r3⟩ := q
              rw [hp] at h
              simp only [Option.map_some'] at h
              injection h with hp2
              injection hp2 with hv _
              rw [← hv]
              exact trivial
          · rw [if_neg h3] at h
            by_cases h4 : c = 't'
            · rw [if_pos h4] at h
              split at h
              · injection h with hp
                injection hp with hv _
                rw [← hv]
                exact trivial
              · exact absurd h (by simp)
            · rw [if_neg h4] at h
              by_cases h5 : c = 'f'
              · rw [if_pos h5] at h
                split at h
                · injection h with hp
                  injection hp with hv _
                  rw [← hv]
                  exact trivial
                · exact absurd h (by simp)
              · rw [if_neg h5] at h
                by_cases h6 : c = 'n'
                · rw [if_pos h6] at h
                  split at h
                  · injection h with hp
                    injection hp with hv _
                    rw [← hv]
                    exact trivial
                  · exact absurd h (by simp)
                · rw [if_neg h6] at h
                  split at h
                  · obtain ⟨n, hn⟩ := parseNumberCore_num h
                    rw [hn]
                    exact trivial
                  · exact absurd h (by simp)

theorem parseArrItems_wf : ∀ (fuel : Nat) (s : PyStr) (xs : List Json) (r : PyStr),
    parseArrItems fuel s = some (xs, r) → Json.WFList xs
  | 0, _, _, _ => fun h => absurd h (by simp [parseArrItems])
  | Nat.succ fuel, s, xs, r => fun h => by
    simp only [parseArrItems] at h
    cases hv : parseValue fuel s with
    | none => rw [hv] at h; exact absurd h (by simp)
    | some p =>
      obtain ⟨v, r1⟩ := p
      rw [hv] at h
      simp only [] at h
      have hwv := parseValue_wf fuel s v r1 hv
      split at h
      · rename_i r2 heq
        cases ha : parseArrItems fuel r2 with
        | none => rw [ha] at h; exact absurd h (by simp)
        | some q =>
          obtain ⟨xs2, r3⟩ := q
          rw [ha] at h
          simp only [Option.map_some'] at h
          injection h with hp
          injection hp with hxs _
          rw [← hxs]
          exact ⟨hwv, parseArrItems_wf fuel r2 xs2 r3 ha⟩
      · rename_i r2 heq
        injection h with hp
        injection hp with hxs _
        rw [← hxs]
        exact ⟨hwv, trivial⟩
      · exact absurd h (by simp)

theorem parseObjItems_wf : ∀ (fuel : Nat) (acc : List (PyStr × Json)) (s : PyStr)
    (fs : List (PyStr × Json)) (r : PyStr),
    parseObjItems fuel acc s = some (fs, r) →
    (acc.map Prod.fst).Nodup → Json.WFFields acc →
    (fs.map Prod.fst).Nodup ∧ Json.WFFields fs
  | 0, _, _, _, _ => fun h _ _ => absurd h (by simp [parseObjItems])
  | Nat.succ fuel, acc, s, fs, r => fun h hnd hwf => by
    simp only [parseObjItems] at h
    split at h
    · rename_i r0 heq
      cases hk : parseStrBody r0 with
      | none => rw [hk] at h; exact absurd h (by simp)
      | some pk =>
        obtain ⟨k, r1⟩ := pk
        rw [hk] at h
        simp only [] at h
        split at h
        · rename_i r2 heq2
          cases hv : parseValue fuel r2 with
          | none => rw [hv] at h; exact absurd h (by simp)
          | some pv =>
            obtain ⟨v, r3⟩ := pv
            rw [hv] at h
            simp only [] at h
            have hwv := parseValue_wf fuel r2 v r3 hv
            split at h
            · rename_i r4 heq3
              exact parseObjItems_wf fuel (dictInsert k v acc) r4 fs r h
                (dictInsert_nodup hnd) (dictInsert_wff hwv hwf)
            · rename_i r4 heq3
              injection h with hp
              injection hp with hfs _
              rw [← hfs]
              exact ⟨dictInsert_nodup hnd, dictInsert_wff hwv hwf⟩
            · exact absurd h (by simp)
        · exact absurd h (by simp)
    · exact absurd h (by simp)

end

theorem loads_wf (t : PyStr) (v : Json) (h : loads t = some v) : Json.WF v := by
  unfold loads at h
  cases hp : parseValue (t.length + 1) t with
  | none => rw [hp] at h; exact absurd h (by simp)
  | some p =>
    obtain ⟨v2, r⟩ := p
    rw [hp] at h
    simp only [] at h
    split at h
    · injection h with hv
      rw [← hv]
      exact parseValue_wf _ _ _ _ hp
    · exact absurd h (by simp)

theorem parse_ok_inversion (s : PyStr) (ops : List Json)
    (h : parse_llm_response s = .ok ops) :
    ops = [] ∨ (loads (selectJsonStr s) = some (.arr ops) ∧ checkOps ops = none) := by
  unfold parse_llm_response at h
  split at h
  · injection h with h1
    exact Or.inl h1.symm
  · cases hl : loads (selectJsonStr s) with
    | none => rw [hl] at h; exact absurd h (by simp)
    | some p =>
      rw [hl] at h
      simp only [] at h
      cases p with
      | arr ops2 =>
        simp only [] at h
        cases hc : checkOps ops2 with
        | some e => rw [hc] at h; exact absurd h (by simp)
        | none =>
          rw [hc] at h
          simp only [] at h
          injection h with h1
          subst h1
          exact Or.inr ⟨rfl, hc⟩
      | null => exact absurd h (by simp)
      | bool b => exact absurd h (by simp)
      | num n => exact absurd h (by simp)
      | str t => exact absurd h (by simp)
      | obj fs2 => exact absurd h (by simp)

/-- C2: corrected round-trip. The original claim fails (see
`parse_roundtrip_cex`): the lazy bare-array regex truncates at the first
`]`, so `parse` rejects a plain JSON array whose operation values are
themselves arrays.  The correct statement: whenever `parse` succeeds on
`s` with operations `ops`, and `json.dumps(ops)` has `]` only as its
final character and contains no backtick, re-parsing `json.dumps(ops)`
returns exactly `ops` — so `parse (dumps (parse s)) = parse s` on such
outputs. -/
theorem parse_dumps_roundtrip (s : PyStr) (ops : List Json)
    (hparse : parse_llm_response s = .ok ops)
    (hrb : rbOnlyFinal (dumpsV (.arr ops)))
    (hbt : '\x60' ∉ dumpsV (.arr ops)) :
    parse_llm_response (dumpsV (.arr ops)) = .ok ops := by
  have hkey : Json.WF (Json.arr ops) ∧ checkOps ops = none := by
    rcases parse_ok_inversion s ops hparse with he | ⟨hl, hc⟩
    · subst he
      exact ⟨trivial, rfl⟩
    · exact ⟨loads_wf _ _ hl, hc⟩
  obtain ⟨hwfarr, hchk⟩ := hkey
  unfold parse_llm_response
  split
  · rename_i hcond
    exfalso
    simp only [Bool.or_eq_true, decide_eq_true_eq] at hcond
    cases hcond with
    | inl h0 =>
      rw [show dumpsV (.arr ops) = '[' :: (dumpsItems ops ++ [']']) from rfl] at h0
      exact List.noConfusion h0
    | inr h0 =>
      rw [show dumpsV (.arr ops) = '[' :: (dumpsItems ops ++ [']']) from rfl] at h0
      exact pyStrip_cons_ne_nil (by decide) _ h0
  · rw [selectJsonStr_dumps ops hbt hrb, loads_dumps (.arr ops) hwfarr]
    simp only []
    rw [hchk]

/-- C2 counterexample to the claim as stated: a well-formed plain JSON
array of one valid `add` operation whose `value` is itself an array.
`json.loads` accepts it and every operation check passes, yet
`parse_llm_response` fails: the lazy bare-array regex stops at the first
`]` (the one closing `[1, 2]`), truncating the selected substring. -/
theorem parse_roundtrip_cex :
    loads (str "[\x7b\"op\": \"add\", \"path\": \"/a\", \"value\": [1, 2]\x7d]")
      = some (.arr [.obj [(str "op", .str (str "add")), (str "path", .str (str "/a")),
          (str "value", .arr [.num 1, .num 2])]])
    ∧ checkOps [.obj [(str "op", .str (str "add")), (str "path", .str (str "/a")),
          (str "value", .arr [.num 1, .num 2])]] = none
    ∧ parse_llm_response (str "[\x7b\"op\": \"add\", \"path\": \"/a\", \"value\": [1, 2]\x7d]")
      = .error (.valueErr (str "Failed to parse JSON from LLM response")) := by
  refine ⟨?_, ?_, ?_⟩
  · decide
  · decide
  · decide

/-- Witness: the C2 theorem applied to a parse of a remove-operation
array, whose serialization has `]` only final and no backtick. -/
theorem parse_dumps_roundtrip_witness :
    parse_llm_response (dumpsV (.arr [Json.obj [(str "op", Json.str (str "remove")),
        (str "path", Json.str (str "/a"))]]))
      = .ok [Json.obj [(str "op", Json.str (str "remove")),
        (str "path", Json.str (str "/a"))]] :=
  parse_dumps_roundtrip (str "[\x7b\"op\": \"remove\", \"path\": \"/a\"\x7d]")
    [Json.obj [(str "op", Json.str (str "remove")), (str "path", Json.str (str "/a"))]]
    (by decide) (by unfold rbOnlyFinal; exact ⟨by decide, by decide⟩) (by decide)

end S2D
